import Mathlib

/-!
Shallow embedding of the OpenGL binding generator in `src/tools/src/gl/api.rs`
(the final iteration of the module; an earlier, superseded iteration lives in
`src/tools/src/gl.rs`), together with proofs of the specification claims.

The XML registry tree handed to the generator by `roxmltree` is modelled by
`XmlNode` below; `HashMap`s and `HashSet`s keyed by strings are modelled by
association lists with overwrite-on-insert (`alInsert`) and set-style lists
(`setInsert`/`setRemove`), which is observation-equivalent because the source
only ever queries them by key, except where it sorts the keys explicitly.
Rust panics (`panic!`, `assert!`) are modelled by a dedicated `GenResult.panic`
outcome (resp. `Option` with `none`), kept distinct from `Result::Err` values.
-/

-- ===========================================================================
-- Generic list helpers (model of HashMap / HashSet keyed by strings)
-- ===========================================================================

/-- Association-list lookup, first match wins. Models `HashMap::get`. -/
def alLookup {α : Type} : List (String × α) → String → Option α
  | [], _ => none
  | (k, v) :: rest, key => if k = key then some v else alLookup rest key

/-- Association-list insert with overwrite. Models `HashMap::insert`. -/
def alInsert {α : Type} : List (String × α) → String → α → List (String × α)
  | [], k, v => [(k, v)]
  | (k', v') :: rest, k, v =>
    if k' = k then (k, v) :: rest else (k', v') :: alInsert rest k v

/-- Association-list delete. Models `HashMap::remove`. -/
def alRemove {α : Type} (l : List (String × α)) (k : String) : List (String × α) :=
  l.filter (fun p => p.1 ≠ k)

/-- Set-style insert. Models `HashSet::insert`. -/
def setInsert (l : List String) (x : String) : List String :=
  if x ∈ l then l else l ++ [x]

/-- Set-style delete. Models `HashSet::remove`. -/
def setRemove (l : List String) (x : String) : List String :=
  l.filter (fun y => y ≠ x)

/-- Concatenated map over a list. -/
def concatMap {α β : Type} (f : α → List β) : List α → List β
  | [] => []
  | a :: l => f a ++ concatMap f l

-- ===========================================================================
-- XML tree model (roxmltree nodes as used by the generator)
-- ===========================================================================

/-- Model of a `roxmltree` node: an element with a tag, attributes and
children, a text node, or any other node kind (comment, PI), which every
loop in the source skips. -/
inductive XmlNode : Type where
  | element (tag : String) (attrs : List (String × String)) (children : List XmlNode)
  | text (s : String)
  | otherNode

/-- Rust `node.tag_name().name()`: empty for non-elements. -/
def XmlNode.tagName : XmlNode → String
  | .element t _ _ => t
  | _ => ""

/-- Rust `node.attribute(name)`. -/
def XmlNode.attr : XmlNode → String → Option String
  | .element _ attrs _, name => alLookup attrs name
  | _, _ => none

/-- Rust `node.children()`. -/
def XmlNode.children : XmlNode → List XmlNode
  | .element _ _ c => c
  | _ => []

/-- Rust `node.is_element()`. -/
def XmlNode.isElement : XmlNode → Bool
  | .element _ _ _ => true
  | _ => false

/-- Rust `xmlparse::element_children_unchecked`: the element children of a node. -/
def elementChildren (n : XmlNode) : List XmlNode :=
  n.children.filter (fun c => c.isElement)

/-- Rust `xmlparse::element_children_tag`: element children with a given tag. -/
def elementChildrenTag (n : XmlNode) (tag : String) : List XmlNode :=
  n.children.filter (fun c => c.isElement && c.tagName == tag)

-- ===========================================================================
-- Errors (src/tools/src/gl/api.rs `Error` and src/tools/src/xmlparse.rs
-- `Error`; text positions are diagnostic-only and dropped)
-- ===========================================================================

/-- Rust `xmlparse::Error`, with tag/attribute names but without text positions. -/
inductive XmlError : Type where
  | UnexpectedTag (tag : String)
  | MissingAttribute (attrName : String) (parent : String)
deriving DecidableEq

/-- Rust `gl::api::Error`, without text positions. -/
inductive Error : Type where
  | MissingCommandProto
  | MissingCommandName
  | InvalidVersion (version : String)
  | InvalidRemoveProfile
  | DuplicateEnum (name : String)
  | InvalidPrototype
  | AliasConflict (name aliasName : String)
  | UnknownType (name : String)
  | UnknownExtension (name : String)
  | XML (e : XmlError)
deriving DecidableEq

/-- Rust `xmlparse::require_attribute`. -/
def require_attribute (node : XmlNode) (name : String) : Except Error String :=
  match node.attr name with
  | none => .error (.XML (.MissingAttribute name node.tagName))
  | some value => .ok value

/-- Rust `xmlparse::unexpected_tag` (the tag name; parent and position dropped). -/
def unexpected_tag (node : XmlNode) : Error :=
  .XML (.UnexpectedTag node.tagName)

/-- Rust `xmlparse::append_text_contents` folded into its caller
`parse_text_contents`: concatenate all text children, error on any element
child. -/
def textContents : List XmlNode → Except Error String
  | [] => .ok ""
  | .element t _ _ :: _ => .error (.XML (.UnexpectedTag t))
  | .text s :: rest => (textContents rest).map (fun r => s ++ r)
  | .otherNode :: rest => textContents rest

/-- Rust `xmlparse::parse_text_contents`. -/
def parse_text_contents (node : XmlNode) : Except Error String :=
  textContents node.children

-- ===========================================================================
-- Version and APISpec (src/tools/src/gl/api.rs lines 17-73)
-- ===========================================================================

/-- Rust `Version(u8, u8)`. Components are kept as `Nat` with the u8 bound
enforced by the parser. -/
structure Version : Type where
  major : Nat
  minor : Nat
deriving DecidableEq

/-- Lexicographic strict order, as derived by `#[derive(PartialOrd, Ord)]`
for `struct Version(u8, u8)`. -/
def Version.lt (a b : Version) : Bool :=
  a.major < b.major || (a.major == b.major && a.minor < b.minor)

/-- Lexicographic order, as derived for `struct Version(u8, u8)`. -/
def Version.le (a b : Version) : Bool :=
  a.major < b.major || (a.major == b.major && a.minor ≤ b.minor)

theorem Version.lt_eq_false_iff_le (a b : Version) :
    Version.lt a b = false ↔ Version.le b a = true := by
  cases a; cases b
  simp [Version.lt, Version.le]
  omega

/-- Rust `str::split_once(ch)`: split at the first occurrence of `ch`, neither
half containing the separator; `None` when `ch` does not occur. -/
def splitOnceChar : List Char → Char → Option (List Char × List Char)
  | [], _ => none
  | c :: rest, d =>
    if c = d then some ([], rest)
    else (splitOnceChar rest d).map (fun p => (c :: p.1, p.2))

/-- Rust `u8::from_str_radix(s, 10)`: an optional leading `+`, then one or more
ASCII decimal digits, value at most 255; anything else is an error. -/
def parseU8 (s : List Char) : Option Nat :=
  let digits := match s with
    | '+' :: rest => rest
    | _ => s
  if digits.isEmpty then none
  else if digits.all (fun c => c.isDigit) then
    let v := digits.foldl (fun a c => a * 10 + (c.toNat - 48)) 0
    if v < 256 then some v else none
  else none

/-- Rust `Version::parse` (api.rs lines 21-28): split on the first `.`, parse both
halves as u8. -/
def Version.parse (text : String) : Option Version :=
  match splitOnceChar text.data '.' with
  | none => none
  | some (major, minor) =>
    match parseU8 major with
    | none => none
    | some major =>
      match parseU8 minor with
      | none => none
      | some minor => some ⟨major, minor⟩

/-- Rust `APISpec`: requested version plus extension names. -/
structure APISpec : Type where
  version : Version
  extensions : List String

-- ===========================================================================
-- CallType, FeatureSpec (api.rs lines 138-197)
-- ===========================================================================

/-- Rust `CallType`: how a selected command is called. -/
inductive CallType : Type where
  | Linker
  | Runtime
deriving DecidableEq

/-- Rust `FeatureSpec`: resolution parameters derived from the two APISpecs. -/
structure FeatureSpec : Type where
  max_version : Version
  linkable_version : Version
  extensions : List (String × CallType)

/-- Inner loop of `all_extensions`: collect the `name` attributes of
`<extension>` items. -/
def allExtensionItems : List XmlNode → Except Error (List String) → Except Error (List String)
  | _, .error e => .error e
  | [], .ok acc => .ok acc
  | item :: rest, .ok acc =>
    match require_attribute item "name" with
    | .error e => .error e
    | .ok name => allExtensionItems rest (.ok (setInsert acc name))

/-- Rust `all_extensions` (api.rs lines 146-156): every extension name declared
under any `<extensions>` block of the registry. -/
def all_extensions (node : XmlNode) : Except Error (List String) :=
  (elementChildrenTag node "extensions").foldl
    (fun acc child => allExtensionItems (elementChildrenTag child "extension") acc)
    (.ok [])

/-- First loop of `FeatureSpec::from_specs`: every extension requested at
runtime must exist; insert it with `CallType::Runtime`. -/
def fromSpecsRuntime (known : List String) :
    List String → List (String × CallType) → Except Error (List (String × CallType))
  | [], acc => .ok acc
  | e :: rest, acc =>
    if e ∈ known then fromSpecsRuntime known rest (alInsert acc e .Runtime)
    else .error (.UnknownExtension e)

/-- Second loop of `FeatureSpec::from_specs`: every link-time extension must
exist; upgrade it to `CallType::Linker` only if already present
(`HashMap::get_mut` does not add keys). -/
def fromSpecsLinker (known : List String) :
    List String → List (String × CallType) → Except Error (List (String × CallType))
  | [], acc => .ok acc
  | e :: rest, acc =>
    if e ∈ known then
      match alLookup acc e with
      | some _ => fromSpecsLinker known rest (alInsert acc e .Linker)
      | none => fromSpecsLinker known rest acc
    else .error (.UnknownExtension e)

/-- Rust `FeatureSpec::from_specs` (api.rs lines 158-182). -/
def FeatureSpec.from_specs (api link : APISpec) (node : XmlNode) : Except Error FeatureSpec :=
  match all_extensions node with
  | .error e => .error e
  | .ok known =>
    match fromSpecsRuntime known api.extensions [] with
    | .error e => .error e
    | .ok exts =>
      match fromSpecsLinker known link.extensions exts with
      | .error e => .error e
      | .ok exts => .ok ⟨api.version, link.version, exts⟩

-- ===========================================================================
-- FeatureSet resolution (api.rs lines 193-311)
-- ===========================================================================

/-- Rust `FeatureSet`: resolved enum names and command-name-to-CallType map. -/
structure FeatureSet : Type where
  enums : List String
  commands : List (String × CallType)
deriving DecidableEq

/-- Loop body of `FeatureSet::parse_require` (api.rs lines 266-285) over the
`<require>` children. -/
def requireItems (av : CallType) : FeatureSet → List XmlNode → Except Error FeatureSet
  | s, [] => .ok s
  | s, child :: rest =>
    if child.isElement then
      if child.tagName = "command" then
        match require_attribute child "name" with
        | .error e => .error e
        | .ok name => requireItems av { s with commands := alInsert s.commands name av } rest
      else if child.tagName = "enum" then
        match require_attribute child "name" with
        | .error e => .error e
        | .ok name => requireItems av { s with enums := setInsert s.enums name } rest
      else if child.tagName = "type" then requireItems av s rest
      else .error (unexpected_tag child)
    else requireItems av s rest

/-- Rust `FeatureSet::parse_require`. -/
def FeatureSet.parse_require (s : FeatureSet) (node : XmlNode) (av : CallType) :
    Except Error FeatureSet :=
  requireItems av s node.children

/-- Loop body of `FeatureSet::parse_remove` (api.rs lines 287-310) over the
`<remove>` children. -/
def removeItems : FeatureSet → List XmlNode → Except Error FeatureSet
  | s, [] => .ok s
  | s, child :: rest =>
    if child.isElement then
      if child.tagName = "command" then
        match require_attribute child "name" with
        | .error e => .error e
        | .ok name => removeItems { s with commands := alRemove s.commands name } rest
      else if child.tagName = "enum" then
        match require_attribute child "name" with
        | .error e => .error e
        | .ok name => removeItems { s with enums := setRemove s.enums name } rest
      else if child.tagName = "type" then removeItems s rest
      else .error (unexpected_tag child)
    else removeItems s rest

/-- Rust `FeatureSet::parse_remove`: the `profile` attribute must be `"core"`. -/
def FeatureSet.parse_remove (s : FeatureSet) (node : XmlNode) : Except Error FeatureSet :=
  match require_attribute node "profile" with
  | .error e => .error e
  | .ok profile =>
    if profile ≠ "core" then .error .InvalidRemoveProfile
    else removeItems s node.children

/-- Child loop of `FeatureSet::parse_feature`: `<require>` and `<remove>`
children applied in document order; anything else is an error. -/
def featureChildren (av : CallType) : FeatureSet → List XmlNode → Except Error FeatureSet
  | s, [] => .ok s
  | s, child :: rest =>
    if child.isElement then
      if child.tagName = "require" then
        match s.parse_require child av with
        | .error e => .error e
        | .ok s => featureChildren av s rest
      else if child.tagName = "remove" then
        match s.parse_remove child with
        | .error e => .error e
        | .ok s => featureChildren av s rest
      else .error (unexpected_tag child)
    else featureChildren av s rest

/-- Rust `FeatureSet::parse_feature` (api.rs lines 220-250). -/
def FeatureSet.parse_feature (s : FeatureSet) (node : XmlNode) (api : FeatureSpec) :
    Except Error FeatureSet :=
  match require_attribute node "api" with
  | .error e => .error e
  | .ok a =>
    if a ≠ "gl" then .ok s
    else
      match require_attribute node "number" with
      | .error e => .error e
      | .ok versionText =>
        match Version.parse versionText with
        | none => .error (.InvalidVersion versionText)
        | some version =>
          if Version.lt api.max_version version then .ok s
          else
            featureChildren
              (if Version.le version api.linkable_version then .Linker else .Runtime)
              s node.children

/-- Child loop of `FeatureSet::parse_extension`: only `<require>` children are
allowed at extension scope. -/
def extensionItems (ct : CallType) : FeatureSet → List XmlNode → Except Error FeatureSet
  | s, [] => .ok s
  | s, child :: rest =>
    if child.isElement then
      if child.tagName = "require" then
        match s.parse_require child ct with
        | .error e => .error e
        | .ok s => extensionItems ct s rest
      else .error (unexpected_tag child)
    else extensionItems ct s rest

/-- Rust `FeatureSet::parse_extension` (api.rs lines 252-264): extensions not in
the requested map are skipped entirely. -/
def FeatureSet.parse_extension (s : FeatureSet) (node : XmlNode) (api : FeatureSpec) :
    Except Error FeatureSet :=
  match require_attribute node "name" with
  | .error e => .error e
  | .ok name =>
    match alLookup api.extensions name with
    | none => .ok s
    | some ct => extensionItems ct s node.children

/-- Loop of `FeatureSet::build` over `<extension>` items of an `<extensions>`
block. -/
def extensionList (api : FeatureSpec) : FeatureSet → List XmlNode → Except Error FeatureSet
  | s, [] => .ok s
  | s, item :: rest =>
    match s.parse_extension item api with
    | .error e => .error e
    | .ok s => extensionList api s rest

/-- Child loop of `FeatureSet::build` over the registry children, in document
order. -/
def buildChildren (api : FeatureSpec) : FeatureSet → List XmlNode → Except Error FeatureSet
  | s, [] => .ok s
  | s, child :: rest =>
    if child.isElement then
      if child.tagName = "feature" then
        match s.parse_feature child api with
        | .error e => .error e
        | .ok s => buildChildren api s rest
      else if child.tagName = "extensions" then
        match extensionList api s (elementChildrenTag child "extension") with
        | .error e => .error e
        | .ok s => buildChildren api s rest
      else buildChildren api s rest
    else buildChildren api s rest

/-- Rust `FeatureSet::build` (api.rs lines 200-218). -/
def FeatureSet.build (node : XmlNode) (api : FeatureSpec) : Except Error FeatureSet :=
  buildChildren api ⟨[], []⟩ node.children

-- ===========================================================================
-- Type map (api.rs lines 830-865)
-- ===========================================================================

/-- Rust `TYPE_MAP`: the fixed C-type mapping table. -/
def TYPE_MAP : List (String × String) := [
  ("GLboolean", "unsigned char"),
  ("GLbitfield", "unsigned"),
  ("GLbyte", "char"),
  ("GLubyte", "unsigned char"),
  ("GLshort", "short"),
  ("GLushort", "unsigned short"),
  ("GLint", "int"),
  ("GLuint", "unsigned"),
  ("GLsizei", "int"),
  ("GLfloat", "float"),
  ("GLclampf", "float"),
  ("GLdouble", "double"),
  ("GLclampd", "double"),
  ("GLchar", "char"),
  ("GLintptr", "long long"),
  ("GLsizeiptr", "long long"),
  ("GLint64", "long long"),
  ("GLuint64", "unsigned long long"),
  ("GLDEBUGPROCKHR", "GLDEBUGPROC")]

/-- Rust `TypeMap::map`: map a type through the table, identity on unknown keys. -/
def TypeMap.map (ty : String) : String :=
  (alLookup TYPE_MAP ty).getD ty

-- ===========================================================================
-- Result type distinguishing Rust panics from returned errors
-- ===========================================================================

/-- Outcome of a computation that can panic (Rust `panic!` / `assert!`),
return an error value, or succeed. -/
inductive GenResult (α : Type) : Type where
  | panic
  | error (e : Error)
  | ok (a : α)
deriving DecidableEq

-- ===========================================================================
-- Enum emission (api.rs lines 317-380)
-- ===========================================================================

/-- The `<enums>` block default type (api.rs lines 326-332): absent means
`GLenum`, `"bitmask"` means `GLbitfield`, and any other value hits
`panic!("type {:?}", s)`. -/
def blockDefaultTy : Option String → GenResult String
  | none => .ok "GLenum"
  | some s => if s = "bitmask" then .ok "GLbitfield" else .panic

/-- Per-`<enum>` type resolution (api.rs lines 349-356): `"u"` is
`unsigned`, `"ull"` is `unsigned long long`, any other explicit value is an
`UnknownType` error, absent falls back to the block default. -/
def enumItemTy (blockTy : String) : Option String → Except Error String
  | none => .ok blockTy
  | some t =>
    if t = "u" then .ok "unsigned"
    else if t = "ull" then .ok "unsigned long long"
    else .error (.UnknownType t)

/-- Body of the `<enum>` item arm of `emit_enums` (api.rs lines 336-373):
api filtering, selection, duplicate detection, type resolution, alias
resolution, and emission of one `constexpr` line. The emitted map carries
`name -> (type, value)` for later alias checks. -/
def emitEnumItem (enums : List String) (blockTy : String) (out : String)
    (emitted : List (String × String × String)) (item : XmlNode) :
    Except Error (String × List (String × String × String)) :=
  let skip : Bool := match item.attr "api" with
    | some a => a ≠ "gl"
    | none => false
  if skip then .ok (out, emitted)
  else
    match require_attribute item "name" with
    | .error e => .error e
    | .ok name =>
      if ¬ enums.contains name then .ok (out, emitted)
      else if (alLookup emitted name).isSome then .error (.DuplicateEnum name)
      else
        match enumItemTy blockTy (item.attr "type") with
        | .error e => .error e
        | .ok ty =>
          match require_attribute item "value" with
          | .error e => .error e
          | .ok value =>
            let emittedLine := fun (v : String) =>
              out ++ "constexpr " ++ ty ++ " " ++ name ++ " = " ++ v ++ ";\n"
            match item.attr "alias" with
            | none => .ok (emittedLine value, alInsert emitted name (ty, value))
            | some aliasName =>
              match alLookup emitted aliasName with
              | none => .ok (emittedLine value, alInsert emitted name (ty, value))
              | some aliasDef =>
                if (ty, value) ≠ aliasDef then .error (.AliasConflict name aliasName)
                else .ok (emittedLine aliasName, alInsert emitted name (ty, value))

/-- Item loop of `emit_enums` over one `<enums>` block: `<unused>` is
skipped, anything other than `<enum>` is an error. -/
def enumItems (enums : List String) (blockTy : String) :
    String × List (String × String × String) → List XmlNode →
    Except Error (String × List (String × String × String))
  | st, [] => .ok st
  | st, item :: rest =>
    match item.tagName with
    | "enum" =>
      match emitEnumItem enums blockTy st.1 st.2 item with
      | .error e => .error e
      | .ok st => enumItems enums blockTy st rest
    | "unused" => enumItems enums blockTy st rest
    | t => .error (.XML (.UnexpectedTag t))

/-- Block loop of `emit_enums` over the `<enums>` blocks of the registry. -/
def enumBlocks (enums : List String) :
    String × List (String × String × String) → List XmlNode →
    GenResult (String × List (String × String × String))
  | st, [] => .ok st
  | st, block :: rest =>
    match blockDefaultTy (block.attr "type") with
    | .panic => .panic
    | .error e => .error e
    | .ok ty0 =>
      match enumItems enums (TypeMap.map ty0) st (elementChildren block) with
      | .error e => .error e
      | .ok st => enumBlocks enums st rest

/-- Rust `emit_enums` (api.rs lines 318-380). -/
def emit_enums (enums : List String) (node : XmlNode) : GenResult String :=
  match enumBlocks enums ("", []) (elementChildrenTag node "enums") with
  | .panic => .panic
  | .error e => .error e
  | .ok st => .ok st.1

-- ===========================================================================
-- Function parsing (api.rs lines 386-531)
-- ===========================================================================

/-- One resolved command (api.rs `Function`). -/
structure Function : Type where
  name : String
  call : CallType
  return_type : String
  parameter_declarations : String
  parameter_names : String
deriving DecidableEq

/-- Rust `command_info` (api.rs lines 396-405): the command name from
`<proto><name>` plus the `<proto>` node. -/
def command_info (node : XmlNode) : Except Error (String × XmlNode) :=
  match elementChildrenTag node "proto" with
  | [] => .error .MissingCommandProto
  | proto :: _ =>
    match elementChildrenTag proto "name" with
    | [] => .error .MissingCommandName
    | nameNode :: _ =>
      match parse_text_contents nameNode with
      | .error e => .error e
      | .ok name => .ok (name, proto)

/-- Rust `char::is_ascii_whitespace`. -/
def asciiWhitespace (c : Char) : Bool :=
  c = ' ' || c = '\t' || c = '\n' || c = '\x0d' || c = '\x0c'

/-- Rust `str::trim_ascii_end` (followed by `truncate` in the source). -/
def trimAsciiEnd (s : String) : String :=
  ⟨(s.data.reverse.dropWhile (fun c => asciiWhitespace c)).reverse⟩

/-- Child loop of `emit_return_type` (api.rs lines 408-435). -/
def returnTypeLoop : List XmlNode → Bool → String → Except Error String
  | [], _, out => .ok out
  | child :: rest, hasName, out =>
    match child with
    | .element "name" _ _ => returnTypeLoop rest true out
    | .element "ptype" _ ch =>
      if hasName then .error .InvalidPrototype
      else
        match textContents ch with
        | .error e => .error e
        | .ok ty => returnTypeLoop rest hasName (out ++ TypeMap.map ty)
    | .element t _ _ => .error (.XML (.UnexpectedTag t))
    | .text s =>
      if hasName = false then returnTypeLoop rest hasName (out ++ s)
      else if s.data.any (fun c => asciiWhitespace c = false) then .error .InvalidPrototype
      else returnTypeLoop rest hasName out
    | .otherNode => returnTypeLoop rest hasName out

/-- Rust `emit_return_type` (api.rs lines 408-442): concatenate leading text and
mapped `<ptype>` contents before `<name>`, trim trailing ASCII whitespace,
and reject an empty result. -/
def emit_return_type (node : XmlNode) : Except Error String :=
  match returnTypeLoop node.children false "" with
  | .error e => .error e
  | .ok out =>
    let trimmed := trimAsciiEnd out
    if trimmed.data.length = 0 then .error .InvalidPrototype else .ok trimmed

/-- Inner loop of `emit_parameters` over the children of one `<param>`
(api.rs lines 457-482): returns (saw-name flag, declarations, names). -/
def paramItemLoop : List XmlNode → Bool → String → String →
    Except Error (Bool × String × String)
  | [], hn, d, n => .ok (hn, d, n)
  | child :: rest, hn, d, n =>
    match child with
    | .element "ptype" _ ch =>
      match textContents ch with
      | .error e => .error e
      | .ok ty => paramItemLoop rest hn (d ++ TypeMap.map ty) n
    | .element "name" _ ch =>
      if hn then .error .InvalidPrototype
      else
        match textContents ch with
        | .error e => .error e
        | .ok t => paramItemLoop rest true (d ++ t) (n ++ t)
    | .element t _ _ => .error (.XML (.UnexpectedTag t))
    | .text s => paramItemLoop rest hn (d ++ s) n
    | .otherNode => paramItemLoop rest hn d n

/-- Outer loop of `emit_parameters` over the `<param>` children (api.rs
lines 446-488). -/
def paramsLoop : List XmlNode → Bool → String → String → Except Error (String × String)
  | [], _, d, n => .ok (d, n)
  | p :: rest, hasParameter, d, n =>
    let d := if hasParameter then d ++ ", " else d
    let n := if hasParameter then n ++ ", " else n
    match paramItemLoop p.children false d n with
    | .error e => .error e
    | .ok (hn, d, n) =>
      if hn = false then .error .InvalidPrototype
      else paramsLoop rest true d n

/-- Rust `emit_parameters` (api.rs lines 446-488). -/
def emit_parameters (node : XmlNode) : Except Error (String × String) :=
  paramsLoop (elementChildrenTag node "param") false "" ""

/-- Rust `Function::parse` (api.rs lines 493-511): `ok none` when the command is
not in the resolved command map. -/
def Function.parse (commands : List (String × CallType)) (node : XmlNode) :
    Except Error (Option Function) :=
  match command_info node with
  | .error e => .error e
  | .ok (name, proto) =>
    match alLookup commands name with
    | none => .ok none
    | some call =>
      match emit_return_type proto with
      | .error e => .error e
      | .ok return_type =>
        match emit_parameters node with
        | .error e => .error e
        | .ok (parameter_declarations, parameter_names) =>
          .ok (some ⟨name, call, return_type, parameter_declarations, parameter_names⟩)

/-- Item loop of `Function::parse_all` over one `<commands>` block: every
element child must be a `<command>`. -/
def commandItems (commands : List (String × CallType)) :
    List XmlNode → Except Error (List Function)
  | [] => .ok []
  | item :: rest =>
    if item.tagName ≠ "command" then .error (unexpected_tag item)
    else
      match Function.parse commands item with
      | .error e => .error e
      | .ok of =>
        match commandItems commands rest with
        | .error e => .error e
        | .ok l => .ok (match of with | none => l | some f => f :: l)

/-- Block loop of `Function::parse_all` over the `<commands>` blocks. -/
def commandBlocks (commands : List (String × CallType)) :
    List XmlNode → Except Error (List Function)
  | [] => .ok []
  | b :: rest =>
    match commandItems commands (elementChildren b) with
    | .error e => .error e
    | .ok l1 =>
      match commandBlocks commands rest with
      | .error e => .error e
      | .ok l2 => .ok (l1 ++ l2)

/-- Rust `Function::parse_all` (api.rs lines 514-531): a single pass over the
`<commands><command>` elements in document order, keeping exactly those
whose names are in the resolved command map. -/
def Function.parse_all (commands : List (String × CallType)) (node : XmlNode) :
    Except Error (List Function) :=
  commandBlocks commands (elementChildrenTag node "commands")

-- ===========================================================================
-- Function emission (api.rs lines 533-576) and `Functions::emit`
-- ===========================================================================

/-- Rust `Function::emit_linked`. -/
def Function.emit_linked (f : Function) : String :=
  "GLIMPORT " ++ f.return_type ++ " GLAPI " ++ f.name ++ "(" ++
    f.parameter_declarations ++ ");\n"

/-- Rust `Function::emit_missing`. -/
def Function.emit_missing (f : Function) : String :=
  f.return_type ++ " " ++ f.name ++ "(" ++ f.parameter_declarations ++
    "); // undefined\n"

/-- Rust `Function::emit_runtime`: the inline wrapper dispatching through
`FunctionPointers[index]`. -/
def Function.emit_runtime (f : Function) (index : Nat) : String :=
  "inline " ++ f.return_type ++ " " ++ f.name ++ "(" ++
    f.parameter_declarations ++ ") \x7b\n\tusing Proc = " ++ f.return_type ++
    " (GLAPI *)(" ++ f.parameter_declarations ++ ");\n\t" ++
    (if f.return_type ≠ "void" then "return " else "") ++
    "static_cast<Proc>(demo::gl_api::FunctionPointers[" ++ toString index ++
    "])(" ++ f.parameter_names ++ ");\n\x7d\n"

/-- An OpenGL API subset (api.rs `API`): pre-rendered enum text, parsed
functions, and the sorted requested extension names. -/
structure API : Type where
  enums : String
  functions : List Function
  extensions : List String

/-- Emitted function text plus the ordered runtime lookup list (api.rs
`Functions`). -/
structure Functions : Type where
  functions : String
  lookups : List String
deriving DecidableEq

/-- The subset-inclusion test in `Functions::emit`: `None` means include
everything, `Some(set)` means membership in the set. -/
def includeName (subset : Option (List String)) (name : String) : Bool :=
  match subset with
  | none => true
  | some set => set.contains name

/-- The loop of `Functions::emit` (api.rs lines 679-701): Linker commands
are declared, included Runtime commands get an inline wrapper at the next
lookup index and are appended to `lookups`, excluded Runtime commands get
the missing stub. -/
def Functions.emitLoop (subset : Option (List String)) :
    List Function → String → List String → Functions
  | [], out, lookups => ⟨out, lookups⟩
  | f :: rest, out, lookups =>
    match f.call with
    | .Linker => Functions.emitLoop subset rest (out ++ Function.emit_linked f) lookups
    | .Runtime =>
      if includeName subset f.name then
        Functions.emitLoop subset rest (out ++ Function.emit_runtime f lookups.length)
          (lookups ++ [f.name])
      else
        Functions.emitLoop subset rest (out ++ Function.emit_missing f) lookups

/-- Rust `Functions::emit` (api.rs lines 678-702). -/
def Functions.emit (api : API) (subset : Option (List String)) : Functions :=
  Functions.emitLoop subset api.functions "" []

-- ===========================================================================
-- Binding assembly (api.rs lines 610-828, emit.rs StringWriter/HEADER)
-- ===========================================================================

/-- Rust `emit::HEADER`. -/
def HEADER : String :=
  "// This file is automatically generated.\n// clang-format off\n"

/-- Rust `emit::COLUMNS`. -/
def COLUMNS : Nat := 79

/-- Rust `emit::StringWriter` state: the output accumulated so far and the
current line-length limit. Lengths are measured in characters, which
coincides with Rust's byte lengths because every character the writer
appends is ASCII. -/
structure SW : Type where
  out : String
  limit : Nat

/-- Rust `String::insert_str`. -/
def stringInsertAt (s : String) (i : Nat) (t : String) : String :=
  ⟨s.data.take i ++ t.data ++ s.data.drop i⟩

/-- One lowercase hex digit. -/
def hexDigitChar (n : Nat) : Char :=
  if n < 10 then Char.ofNat (48 + n) else Char.ofNat (87 + n)

/-- Rust `StringWriter::new`: opens the C string literal. -/
def swNew (out : String) : SW :=
  let out := out ++ "\""
  ⟨out, out.data.length + (COLUMNS - 2)⟩

/-- One byte of `StringWriter::write`: printable bytes are passed through
(the escape condition `c == b'\\' && c == b'"'` in the source is always
false), control bytes are escaped, and the line is split past the limit. -/
def swWriteByte (w : SW) (c : Nat) : SW :=
  let start := w.out.data.length
  let out :=
    if 32 ≤ c ∧ c ≤ 126 then w.out ++ String.mk [Char.ofNat c]
    else
      let esc : String :=
        if c = 9 then "t"
        else if c = 13 then "r"
        else if c = 10 then "n"
        else "x" ++ String.mk [hexDigitChar (c / 16 % 16), hexDigitChar (c % 16)]
      w.out ++ "\\" ++ esc
  if w.limit < out.data.length then
    ⟨stringInsertAt out start "\"\n\"", start + (3 + COLUMNS - 2)⟩
  else ⟨out, w.limit⟩

/-- Rust `StringWriter::write`. -/
def swWrite (w : SW) (bytes : List Nat) : SW :=
  bytes.foldl swWriteByte w

/-- Rust `StringWriter::finish`. -/
def swFinish (w : SW) : String :=
  w.out ++ "\"\n"

/-- UTF-8 encoding of one character, as `str::as_bytes` exposes it. -/
def charBytes (c : Char) : List Nat :=
  let n := c.toNat
  if n < 128 then [n]
  else if n < 2048 then [192 + n / 64, 128 + n % 64]
  else if n < 65536 then [224 + n / 4096, 128 + n / 64 % 64, 128 + n % 64]
  else [240 + n / 262144, 128 + n / 4096 % 64, 128 + n / 64 % 64, 128 + n % 64]

/-- Rust `str::as_bytes` as a byte list. -/
def strBytes (s : String) : List Nat :=
  concatMap charBytes s.data

/-- Rust `str::len` (UTF-8 byte length). -/
def strLen (s : String) : Nat :=
  (strBytes s).length

/-- The name-packing loop of `emit_data` (api.rs lines 798-804): the byte
string passed to the `StringWriter`, a NUL byte between consecutive
names. This is the value of the emitted `FunctionNames` (resp.
`ExtensionNames`) character array up to its trailing NUL padding. -/
def namesBytesLoop : List String → Bool → List Nat
  | [], _ => []
  | name :: rest, first =>
    (if first then [] else [0]) ++ strBytes name ++ namesBytesLoop rest false

/-- The packed NUL-separated name table. -/
def packedNamesBytes (names : List String) : List Nat :=
  namesBytesLoop names true

/-- Rust `emit_data` (api.rs lines 775-828). -/
def emit_data (functions : Functions) (extensions : List String) : String :=
  let out := HEADER ++ "namespace demo \x7b\nnamespace gl_api \x7b\n"
  let size := (functions.lookups.map strLen).sum + functions.lookups.length
  let out := out ++ "void *FunctionPointers[" ++ toString functions.lookups.length ++
    "];\nextern const char FunctionNames[" ++ toString size ++ "] =\n"
  let out := swFinish (swWrite (swNew out) (packedNamesBytes functions.lookups))
  let out := out ++ ";\n"
  let out :=
    if extensions.isEmpty then out
    else
      let esize := (extensions.map strLen).sum + extensions.length
      let out := out ++ "bool ExtensionAvailable[" ++ toString extensions.length ++
        "];\nextern const char ExtensionNames[" ++ toString esize ++ "] =\n"
      let out := swFinish (swWrite (swNew out) (packedNamesBytes extensions))
      out ++ ";\n"
  out ++ "\x7d\n\x7d\n"

/-- Rust `str::starts_with` with a string-literal pattern. -/
def strStartsWith (s p : String) : Bool :=
  p.data.isPrefixOf s.data

/-- The byte-range slice `&name[3..]`; character and byte offsets coincide
because the stripped `GL_` prefix is ASCII. -/
def strDrop (s : String) (n : Nat) : String :=
  ⟨s.data.drop n⟩

/-- The per-extension emission loop of `emit_header` (api.rs lines
743-753): `assert!(name.starts_with("GL_"))` is modelled by `none`; the
`#define` uses the full name while the `Extension` marker object uses the
name with the `GL_` prefix stripped. -/
def extensionDefs : List String → Nat → Option String
  | [], _ => some ""
  | name :: rest, n =>
    if strStartsWith name "GL_" then
      (extensionDefs rest (n + 1)).map (fun s =>
        "#define " ++ name ++ " 1\nconstexpr Extension " ++
          (strDrop name 3) ++ "\x7b" ++ toString n ++ "\x7d;\n" ++ s)
    else none

/-- The fixed extension support block of `emit_header` (api.rs lines
732-742). -/
def extensionBoilerplate : String :=
  "extern bool ExtensionAvailable[ExtensionCount];\n" ++
  "extern const char ExtensionNames[];\n" ++
  "class Extension \x7b\npublic:\n" ++
  "\texplicit constexpr Extension(int index): mIndex\x7bindex\x7d \x7b\x7d\n" ++
  "\tbool available() const \x7b return ExtensionAvailable[mIndex]; \x7d\n" ++
  "private:\n\tint mIndex;\n\x7d;\n"

/-- Rust `emit_header` (api.rs lines 710-773). `none` models the assertion
failure on an extension name without the `GL_` prefix. -/
def emit_header (enums : String) (functions : Functions) (extensions : List String) :
    Option String :=
  let out := HEADER ++ "namespace demo \x7b\nnamespace gl_api \x7b\n"
  let out := out ++ "constexpr int FunctionPointerCount = " ++
    toString functions.lookups.length ++ ";\n"
  let out := out ++ "extern void *FunctionPointers[FunctionPointerCount];\n" ++
    "extern const char FunctionNames[];\nconstexpr int ExtensionCount = " ++
    toString extensions.length ++ ";\n"
  let step : Option String :=
    if extensions.isEmpty then some out
    else
      (extensionDefs extensions 0).map (fun defs => out ++ extensionBoilerplate ++ defs)
  step.map (fun out =>
    out ++ "\x7d\n\x7d\n\n// Constants \n\n" ++ enums ++
      "\n// Functions\n\nextern \"C\" \x7b\n" ++ functions.functions ++ "\x7d\n")

/-- Rust `UnknownFunctions`: the aggregated unknown-name error of the subset
entry point. -/
structure UnknownFunctions : Type where
  names : List String
deriving DecidableEq

/-- Rust `Bindings`: the generated header and data buffers. -/
structure Bindings : Type where
  header : String
  data : String
deriving DecidableEq

/-- Rust `API::make_bindings_impl` (api.rs lines 633-639); `none` is the
assertion failure propagated from `emit_header`. -/
def API.make_bindings_impl (api : API) (subset : Option (List String)) : Option Bindings :=
  let functions := Functions.emit api subset
  (emit_header api.enums functions api.extensions).map
    (fun header => ⟨header, emit_data functions api.extensions⟩)

/-- Rust `API::make_bindings` (api.rs lines 621-623). -/
def API.make_bindings (api : API) : Option Bindings :=
  api.make_bindings_impl none

/-- Rust `API::make_subset_bindings` (api.rs lines 626-631): the body is
exactly `Ok(self.make_bindings_impl(Some(subset)))` — the declared
`UnknownFunctions` error is never produced. -/
def API.make_subset_bindings (api : API) (subset : List String) :
    Option (Except UnknownFunctions Bindings) :=
  (api.make_bindings_impl (some subset)).map Except.ok

-- ===========================================================================
-- Analysis definitions used to state the claims
-- ===========================================================================

/-- The `name` attributes of the `<command>` element children of a
`<require>`/`<remove>` node. -/
def cmdChildNames (l : List XmlNode) : List String :=
  l.filterMap (fun c =>
    if c.isElement && c.tagName == "command" then c.attr "name" else none)

/-- The `name` attributes of the `<enum>` element children of a
`<require>`/`<remove>` node. -/
def enumChildNames (l : List XmlNode) : List String :=
  l.filterMap (fun c =>
    if c.isElement && c.tagName == "enum" then c.attr "name" else none)

/-- The net effect of one `<feature>`'s child list on one command name:
`some true` if the last `<require>`/`<remove>` child mentioning it adds it,
`some false` if it removes it, `none` if no child mentions it. -/
def featLastCmdAct : List XmlNode → String → Option Bool
  | [], _ => none
  | ch :: rest, c =>
    match featLastCmdAct rest c with
    | some b => some b
    | none =>
      if ch.isElement then
        match ch.tagName with
        | "require" => if c ∈ cmdChildNames ch.children then some true else none
        | "remove" => if c ∈ cmdChildNames ch.children then some false else none
        | _ => none
      else none

/-- All command names mentioned two levels below a `<feature>` element. -/
def featureCmdNames (x : XmlNode) : List String :=
  concatMap (fun ch => if ch.isElement then cmdChildNames ch.children else []) x.children

/-- All command names mentioned below the `<extension>` children of an
`<extensions>` element. -/
def extensionsCmdNames (x : XmlNode) : List String :=
  concatMap (fun ext => featureCmdNames ext) (elementChildrenTag x "extension")

/-- The command names required by an extension's child list. -/
def extReqCmdNames (l : List XmlNode) : List String :=
  concatMap (fun ch =>
    if ch.isElement && ch.tagName == "require" then cmdChildNames ch.children else []) l

/-- The enum names required by an extension's child list. -/
def extReqEnumNames (l : List XmlNode) : List String :=
  concatMap (fun ch =>
    if ch.isElement && ch.tagName == "require" then enumChildNames ch.children else []) l

/-- A registry child whose processing cannot change the resolution state of
the command name `c`. -/
def cmdUntouched (c : String) (x : XmlNode) : Prop :=
  (x.tagName = "feature" → c ∉ featureCmdNames x) ∧
  (x.tagName = "extensions" → c ∉ extensionsCmdNames x)

/-- A registry child that is not a `<feature>` with a `<remove>` child. -/
def noRemoveChild (x : XmlNode) : Prop :=
  x.tagName = "feature" → ∀ ch ∈ x.children, ch.tagName ≠ "remove"

/-- Pointwise inclusion of resolved feature sets: every enum of the first
is an enum of the second, and every command key of the first is a command
key of the second. -/
def keySub (s1 s2 : FeatureSet) : Prop :=
  (∀ e, e ∈ s1.enums → e ∈ s2.enums) ∧
  (∀ k, (alLookup s1.commands k).isSome = true → (alLookup s2.commands k).isSome = true)

/-- The names of the Runtime commands included by `Functions::emit`, in
document order — the specification-side description of `lookups`. -/
def runtimeLookupsSpec (subset : Option (List String)) (fns : List Function) : List String :=
  (fns.filter (fun f =>
    match f.call with
    | .Runtime => includeName subset f.name
    | .Linker => false)).map Function.name

/-- Split a byte string on NUL bytes. -/
def splitOnNul : List Nat → List (List Nat)
  | [] => [[]]
  | b :: rest =>
    if b = 0 then [] :: splitOnNul rest
    else
      match splitOnNul rest with
      | [] => [[b]]
      | g :: gs => (b :: g) :: gs

-- ===========================================================================
-- Concrete fixtures used by counterexamples and witnesses
-- ===========================================================================

/-- An `API` value with one Runtime command, as produced for a registry
declaring only `glFoo`. -/
def apiC1 : API :=
  { enums := "",
    functions := [⟨"glFoo", .Runtime, "void", "", ""⟩],
    extensions := [] }

/-- Rust `<proto>void <name>glFoo</name></proto>`. -/
def protoC3 : XmlNode :=
  .element "proto" [] [.text "void ", .element "name" [] [.text "glFoo"]]

/-- A `<command>` defining `glFoo` with no parameters. -/
def cmdC3 : XmlNode := .element "command" [] [protoC3]

/-- A registry whose `<commands>` block contains the same `glFoo` command
definition twice. -/
def regC3 : XmlNode :=
  .element "registry" [] [.element "commands" [] [cmdC3, cmdC3]]

/-- The parse of `cmdC3` when selected as a Runtime command. -/
def funcC3 : Function := ⟨"glFoo", .Runtime, "void", "", ""⟩

/-- A `<command>` defining `glBar` returning `int`. -/
def cmdC3w : XmlNode :=
  .element "command" []
    [.element "proto" [] [.text "int ", .element "name" [] [.text "glBar"]]]

/-- The parse of `cmdC3w` when selected as a Linker command. -/
def funcC3w : Function := ⟨"glBar", .Linker, "int", "", ""⟩

/-- A registry with a single `<enums>` block whose `type` attribute is
neither absent nor `"bitmask"`. -/
def regC4 : XmlNode :=
  .element "registry" [] [.element "enums" [("type", "foo")] []]

/-- Rust `<enum name="GL_B" value="1" alias="GL_A"/>`. -/
def itemC7 : XmlNode :=
  .element "enum" [("name", "GL_B"), ("value", "1"), ("alias", "GL_A")] []

/-- An `API` value carrying an extension name without the `GL_` prefix. -/
def apiC9 : API :=
  { enums := "", functions := [], extensions := ["EXT_bogus"] }

/-- Feature 1.0 requiring `glFoo`. -/
def featC5a : XmlNode :=
  .element "feature" [("api", "gl"), ("number", "1.0")]
    [.element "require" [] [.element "command" [("name", "glFoo")] []]]

/-- Feature 1.1 removing `glFoo` from the core profile. -/
def featC5b : XmlNode :=
  .element "feature" [("api", "gl"), ("number", "1.1")]
    [.element "remove" [("profile", "core")] [.element "command" [("name", "glFoo")] []]]

/-- Registry with the two features above. -/
def regC5 : XmlNode := .element "registry" [] [featC5a, featC5b]

/-- Feature 1.0 requiring `glA` and `GL_E`. -/
def featC8a : XmlNode :=
  .element "feature" [("api", "gl"), ("number", "1.0")]
    [.element "require" []
      [.element "command" [("name", "glA")] [], .element "enum" [("name", "GL_E")] []]]

/-- Feature 2.0 requiring `glB`. -/
def featC8b : XmlNode :=
  .element "feature" [("api", "gl"), ("number", "2.0")]
    [.element "require" [] [.element "command" [("name", "glB")] []]]

/-- Registry with the two remove-free features above. -/
def regC8 : XmlNode := .element "registry" [] [featC8a, featC8b]

/-- Registry declaring the single extension `GL_X` and nothing else. -/
def regC10 : XmlNode :=
  .element "registry" []
    [.element "extensions" [] [.element "extension" [("name", "GL_X")] []]]

/-- An `API` value with two Runtime commands, for the index-synchronization
witness. -/
def apiC6 : API :=
  { enums := "",
    functions :=
      [⟨"glFoo", .Runtime, "void", "", ""⟩, ⟨"glBar", .Runtime, "int", "", ""⟩],
    extensions := [] }

-- ===========================================================================
-- Theorems: container-model lemmas
-- ===========================================================================

theorem alLookup_alInsert {α : Type} (l : List (String × α)) (k k' : String) (v : α) :
    alLookup (alInsert l k v) k' = if k = k' then some v else alLookup l k' := by
  induction l with
  | nil => simp [alInsert, alLookup]
  | cons p rest ih =>
    obtain ⟨pk, pv⟩ := p
    by_cases hpk : pk = k
    · subst hpk
      by_cases hk : pk = k'
      · subst hk; simp [alInsert, alLookup]
      · simp [alInsert, alLookup, hk]
    · by_cases hk : pk = k'
      · subst hk
        have : ¬ k = pk := fun h => hpk h.symm
        simp [alInsert, alLookup, hpk, this]
      · simp [alInsert, alLookup, hpk, hk, ih]

theorem alLookup_alRemove {α : Type} (l : List (String × α)) (k k' : String) :
    alLookup (alRemove l k) k' = if k = k' then none else alLookup l k' := by
  induction l with
  | nil => simp [alRemove, alLookup]
  | cons p rest ih =>
    obtain ⟨pk, pv⟩ := p
    by_cases hpk : pk = k
    · subst hpk
      by_cases hk : pk = k'
      · subst hk; simp [alRemove, alLookup, List.filter] at *; simpa using ih
      · simp [alRemove, List.filter, alLookup, hk] at *; simpa [hk] using ih
    · by_cases hk : pk = k'
      · subst hk
        have : ¬ k = pk := fun h => hpk h.symm
        simp [alRemove, List.filter, alLookup, hpk, this] at *
      · simp [alRemove, List.filter, alLookup, hpk, hk] at *; simpa [hk] using ih

theorem mem_setInsert (l : List String) (x a : String) :
    a ∈ setInsert l x ↔ a = x ∨ a ∈ l := by
  unfold setInsert
  by_cases h : x ∈ l
  · simp [h]
    intro ha; subst ha; exact h
  · simp [h, or_comm]

theorem mem_setRemove (l : List String) (x a : String) :
    a ∈ setRemove l x ↔ a ∈ l ∧ a ≠ x := by
  simp [setRemove]

-- ===========================================================================
-- Theorems: Version parsing (claim C2)
-- ===========================================================================

theorem string_data_append (a b : String) : (a ++ b).data = a.data ++ b.data := by
  cases a; cases b; rfl

theorem splitOnceChar_eq_none (l : List Char) (d : Char) (h : d ∉ l) :
    splitOnceChar l d = none := by
  induction l with
  | nil => rfl
  | cons c rest ih =>
    simp only [List.mem_cons, not_or] at h
    have hcd : ¬ c = d := fun hh => h.1 hh.symm
    simp [splitOnceChar, hcd, ih h.2]

theorem splitOnceChar_append (a b : List Char) (d : Char) (h : d ∉ a) :
    splitOnceChar (a ++ d :: b) d = some (a, b) := by
  induction a with
  | nil => simp [splitOnceChar]
  | cons c rest ih =>
    simp only [List.mem_cons, not_or] at h
    have hcd : ¬ c = d := fun hh => h.1 hh.symm
    simp [splitOnceChar, hcd, ih h.2]

/-- Claim C2 (counterexample): the claim states that
`Version::parse("3.3.1")` returns version `3.3`; in fact `split_once('.')`
yields halves `"3"` and `"3.1"`, and `"3.1"` is not a valid u8, so the
parse returns no value. -/
theorem C2_counterexample : Version.parse "3.3.1" = none := by decide

/-- Claim C2 (amended): `Version::parse` splits its input on the first `.`
and parses each half as an unsigned 8-bit integer; an input with no `.` or
with a non-u8 half returns no value — in particular `"3.3.1"` returns no
value (its second half is `"3.1"`), while `"3.3"` parses as `3.3`. -/
theorem C2_version_parse :
    (∀ s : String, '.' ∉ s.data → Version.parse s = none) ∧
    (∀ a b : String, '.' ∉ a.data →
      Version.parse (a ++ "." ++ b) =
        (parseU8 a.data).bind (fun major =>
          (parseU8 b.data).map (fun minor => ⟨major, minor⟩))) ∧
    Version.parse "3.3.1" = none ∧
    Version.parse "3.3" = some ⟨3, 3⟩ := by
  refine ⟨fun s h => ?_, fun a b h => ?_, by decide, by decide⟩
  · simp [Version.parse, splitOnceChar_eq_none s.data '.' h]
  · have hd : (a ++ "." ++ b).data = a.data ++ '.' :: b.data := by
      rw [string_data_append, string_data_append]
      simp [String.data]
    simp only [Version.parse, hd, splitOnceChar_append a.data b.data '.' h]
    cases parseU8 a.data <;> cases parseU8 b.data <;> simp

/-- Claim C2 witness: concrete applications of the amended theorem. -/
theorem C2_witness :
    Version.parse "33" = none ∧ Version.parse ("12" ++ "." ++ "7") = some ⟨12, 7⟩ := by
  constructor
  · exact C2_version_parse.1 "33" (by decide)
  · have h := C2_version_parse.2.1 "12" "7" (by decide)
    rw [h]; decide

-- ===========================================================================
-- Theorems: subset bindings (claim C1)
-- ===========================================================================

/-- Claim C1 (code bug): `API::make_subset_bindings` in gl/api.rs is
declared to return `Result<Bindings, UnknownFunctions>`, but its body is
exactly `Ok(self.make_bindings_impl(Some(subset)))`: requesting the subset
`{"glFoo", "glNonexistent"}` against an API that only knows `glFoo`
returns success instead of the `UnknownFunctions(["glNonexistent"])` error
required by the claim (and implemented by the superseded iteration in
gl.rs lines 547-572). -/
theorem C1_subset_validation_dropped :
    ∃ b, apiC1.make_subset_bindings ["glFoo", "glNonexistent"] = some (Except.ok b) :=
  ⟨_, rfl⟩

-- ===========================================================================
-- Theorems: duplicate commands (claim C3)
-- ===========================================================================

/-- Claim C3 (counterexample): a registry whose `<commands>` block defines
`glFoo` twice parses without any error — `Function::parse_all` returns two
`Function` records with the same name instead of the `DuplicateFunction`
error stated by the claim (no such error variant exists in the code). -/
theorem C3_counterexample :
    Function.parse_all [("glFoo", CallType.Runtime)] regC3 =
      Except.ok [funcC3, funcC3] := rfl

theorem tagName_command_isElement (item : XmlNode) (h : item.tagName = "command") :
    item.isElement = true := by
  cases item
  · rfl
  · simp [XmlNode.tagName] at h
  · simp [XmlNode.tagName] at h

/-- Claim C3 (amended): `Function::parse_all` performs a single pass over
the `<commands><command>` elements with no duplicate detection: a second
`<command>` whose `<proto><name>` equals the name of an already-selected,
already-parsed command is simply parsed again, and the pass yields two
`Function` records with the same name; no `DuplicateFunction` error exists
in the code. -/
theorem C3_parse_all_no_dedup (commands : List (String × CallType))
    (item : XmlNode) (f : Function)
    (hTag : item.tagName = "command")
    (hParse : Function.parse commands item = .ok (some f)) :
    Function.parse_all commands
      (.element "registry" [] [.element "commands" [] [item, item]]) =
      .ok [f, f] := by
  have hElem := tagName_command_isElement item hTag
  have h2 : elementChildren (XmlNode.element "commands" [] [item, item]) = [item, item] := by
    simp [elementChildren, XmlNode.children, List.filter_cons, hElem]
  have h3 : commandItems commands [item, item] = .ok [f, f] := by
    simp [commandItems, hTag, hParse]
  show commandBlocks commands [XmlNode.element "commands" [] [item, item]] = .ok [f, f]
  simp [commandBlocks, h2, h3]

/-- Claim C3 witness: the amended theorem applied to a concrete `glBar`
command selected as a Linker command. -/
theorem C3_witness :
    Function.parse_all [("glBar", CallType.Linker)]
      (.element "registry" [] [.element "commands" [] [cmdC3w, cmdC3w]]) =
      .ok [funcC3w, funcC3w] :=
  C3_parse_all_no_dedup [("glBar", CallType.Linker)] cmdC3w funcC3w rfl rfl

-- ===========================================================================
-- Theorems: enums block default type (claim C4)
-- ===========================================================================

/-- Claim C4 (counterexample): the claim states that an `<enums>` block
whose `type` attribute is neither absent nor `"bitmask"` defaults to
`GLenum` and is emitted normally; in fact `emit_enums` hits
`panic!("type {:?}", s)` on such a block. -/
theorem C4_counterexample : emit_enums [] regC4 = GenResult.panic := by decide

/-- Claim C4 (amended): the block default type is `GLbitfield` (mapped to
`unsigned` by the C type table) when the `type` attribute is `"bitmask"`
and `GLenum` (left unmapped) when the attribute is absent, and emission
then proceeds; but any other `type` attribute value makes `emit_enums`
panic rather than proceed. -/
theorem C4_enums_default_type :
    blockDefaultTy none = .ok "GLenum" ∧
    blockDefaultTy (some "bitmask") = .ok "GLbitfield" ∧
    TypeMap.map "GLbitfield" = "unsigned" ∧
    TypeMap.map "GLenum" = "GLenum" ∧
    (∀ s, s ≠ "bitmask" → blockDefaultTy (some s) = .panic) ∧
    (∀ (enums : List String) (rattrs battrs : List (String × String))
        (bchildren rest : List XmlNode) (s : String),
      alLookup battrs "type" = some s → s ≠ "bitmask" →
      emit_enums enums
        (.element "registry" rattrs (.element "enums" battrs bchildren :: rest)) =
        .panic) := by
  refine ⟨by decide, by decide, by decide, by decide, fun s hs => ?_, ?_⟩
  · simp [blockDefaultTy, hs]
  · intro enums rattrs battrs bchildren rest s hType hs
    simp [emit_enums, elementChildrenTag, XmlNode.children, XmlNode.isElement,
      XmlNode.tagName, List.filter, enumBlocks, XmlNode.attr, hType, blockDefaultTy, hs]

/-- Claim C4 witness: the amended theorem's panic cases at concrete
inputs. -/
theorem C4_witness :
    blockDefaultTy (some "group") = .panic ∧
    emit_enums []
      (.element "registry" [] [.element "enums" [("type", "bitmask2")] []]) =
      .panic := by
  constructor
  · exact C4_enums_default_type.2.2.2.2.1 "group" (by decide)
  · exact C4_enums_default_type.2.2.2.2.2 [] [] [("type", "bitmask2")] [] [] "bitmask2"
      (by decide) (by decide)

-- ===========================================================================
-- Theorems: enum alias resolution (claim C7)
-- ===========================================================================

/-- Claim C7: for a selected, not-yet-emitted `<enum>` carrying an `alias`
attribute, `emit_enums`'s item step emits the alias target's name as the
value expression when the target was already emitted with the identical
(type, value) pair, fails with `AliasConflict` when the target was emitted
with a different type or value, and falls back to the enum's own literal
`value` when the target has not been emitted. -/
theorem C7_alias_resolution (enums : List String) (blockTy out : String)
    (emitted : List (String × String × String)) (item : XmlNode)
    (name value ty aliasName : String)
    (hApi : item.attr "api" = none ∨ item.attr "api" = some "gl")
    (hName : item.attr "name" = some name)
    (hSel : enums.contains name = true)
    (hNew : alLookup emitted name = none)
    (hTy : enumItemTy blockTy (item.attr "type") = .ok ty)
    (hVal : item.attr "value" = some value)
    (hAlias : item.attr "alias" = some aliasName) :
    (alLookup emitted aliasName = some (ty, value) →
      emitEnumItem enums blockTy out emitted item =
        .ok (out ++ "constexpr " ++ ty ++ " " ++ name ++ " = " ++ aliasName ++ ";\n",
          alInsert emitted name (ty, value))) ∧
    (∀ d, alLookup emitted aliasName = some d → d ≠ (ty, value) →
      emitEnumItem enums blockTy out emitted item = .error (.AliasConflict name aliasName)) ∧
    (alLookup emitted aliasName = none →
      emitEnumItem enums blockTy out emitted item =
        .ok (out ++ "constexpr " ++ ty ++ " " ++ name ++ " = " ++ value ++ ";\n",
          alInsert emitted name (ty, value))) := by
  have hmem : name ∈ enums := by simpa using hSel
  refine ⟨fun hA => ?_, fun d hA hneq => ?_, fun hA => ?_⟩ <;>
    rcases hApi with h | h
  · simp [emitEnumItem, h, require_attribute, hName, hmem, hNew, hTy, hVal, hAlias, hA]
  · simp [emitEnumItem, h, require_attribute, hName, hmem, hNew, hTy, hVal, hAlias, hA]
  · simp [emitEnumItem, h, require_attribute, hName, hmem, hNew, hTy, hVal, hAlias, hA,
      Ne.symm hneq]
  · simp [emitEnumItem, h, require_attribute, hName, hmem, hNew, hTy, hVal, hAlias, hA,
      Ne.symm hneq]
  · simp [emitEnumItem, h, require_attribute, hName, hmem, hNew, hTy, hVal, hAlias, hA]
  · simp [emitEnumItem, h, require_attribute, hName, hmem, hNew, hTy, hVal, hAlias, hA]

/-- Claim C7 witness: concrete application of the alias-target-present
case. -/
theorem C7_witness :
    emitEnumItem ["GL_B"] "GLenum" "" [("GL_A", ("GLenum", "1"))] itemC7 =
      .ok ("constexpr GLenum GL_B = GL_A;\n",
        [("GL_A", ("GLenum", "1")), ("GL_B", ("GLenum", "1"))]) := by
  have h := (C7_alias_resolution ["GL_B"] "GLenum" "" [("GL_A", ("GLenum", "1"))] itemC7
    "GL_B" "1" "GLenum" "GL_A" (Or.inl rfl) rfl rfl rfl rfl rfl rfl).1 rfl
  simpa using h

-- ===========================================================================
-- Theorems: extension name assertion in emit_header (claim C9)
-- ===========================================================================

theorem string_append_nil (s : String) : s ++ "" = s := by
  cases s with
  | mk data => show String.mk (data ++ []) = String.mk data; simp

theorem extensionDefs_eq_none (l : List String) (n : Nat) (e : String)
    (he : e ∈ l) (hp : strStartsWith e "GL_" = false) : extensionDefs l n = none := by
  induction l generalizing n with
  | nil => cases he
  | cons x rest ih =>
    rcases List.mem_cons.mp he with rfl | hmem
    · simp [extensionDefs, hp]
    · by_cases hx : strStartsWith x "GL_" = true
      · simp [extensionDefs, hx, ih _ hmem]
      · simp [extensionDefs, hx]

theorem extensionDefs_eq_some (l : List String) (n : Nat)
    (h : ∀ e ∈ l, strStartsWith e "GL_" = true) : ∃ s, extensionDefs l n = some s := by
  induction l generalizing n with
  | nil => exact ⟨"", rfl⟩
  | cons x rest ih =>
    obtain ⟨s, hs⟩ := ih (n + 1) (fun e he => h e (List.mem_cons_of_mem _ he))
    refine ⟨"#define " ++ x ++ " 1\nconstexpr Extension " ++ strDrop x 3 ++
      "\x7b" ++ toString n ++ "\x7d;\n" ++ s, ?_⟩
    simp [extensionDefs, h x (List.mem_cons_self _ _), hs]

/-- Claim C9 (counterexample): the claim states that the per-extension
`#define` uses the extension name with the `GL_` prefix stripped; in fact
the `#define` line uses the full name, and only the `constexpr Extension`
marker object uses the stripped name. -/
theorem C9_counterexample :
    extensionDefs ["GL_ARB_debug"] 0 =
      some "#define GL_ARB_debug 1\nconstexpr Extension ARB_debug\x7b0\x7d;\n" ∧
    strStartsWith ((extensionDefs ["GL_ARB_debug"] 0).getD "") "#define ARB_debug" = false ∧
    strStartsWith ((extensionDefs ["GL_ARB_debug"] 0).getD "") "#define GL_ARB_debug" = true := by
  refine ⟨?_, by decide, by decide⟩
  have h : extensionDefs ["GL_ARB_debug"] 0 =
      some ("#define GL_ARB_debug 1\nconstexpr Extension ARB_debug\x7b0\x7d;\n" ++ "") := by
    decide
  rw [h, string_append_nil]

/-- Claim C9 (amended): header emission asserts that every included
extension name starts with `GL_` — an extension name without that prefix
makes `make_bindings` abort (modelled by `none`) rather than return an
error value, and when every name has the prefix the bindings are produced;
the per-extension `#define` uses the full extension name while the
`constexpr Extension` marker uses the name with the prefix stripped. -/
theorem C9_extension_assert :
    (∀ (api : API) (e : String), e ∈ api.extensions → strStartsWith e "GL_" = false →
      api.make_bindings = none) ∧
    (∀ api : API, (∀ e ∈ api.extensions, strStartsWith e "GL_" = true) →
      (api.make_bindings).isSome = true) ∧
    (∀ (name : String) (n : Nat), strStartsWith name "GL_" = true →
      extensionDefs [name] n =
        some ("#define " ++ name ++ " 1\nconstexpr Extension " ++ strDrop name 3 ++
          "\x7b" ++ toString n ++ "\x7d;\n")) := by
  refine ⟨fun api e hmem hp => ?_, fun api h => ?_, fun name n hp => ?_⟩
  · have hne : api.extensions.isEmpty = false := by
      rcases hne : api.extensions with _ | ⟨x, rest⟩
      · rw [hne] at hmem; cases hmem
      · rfl
    simp [API.make_bindings, API.make_bindings_impl, emit_header, hne,
      extensionDefs_eq_none api.extensions 0 e hmem hp]
  · by_cases he : api.extensions.isEmpty
    · simp [API.make_bindings, API.make_bindings_impl, emit_header, he]
    · obtain ⟨s, hs⟩ := extensionDefs_eq_some api.extensions 0 h
      simp [API.make_bindings, API.make_bindings_impl, emit_header, he, hs]
  · simp [extensionDefs, hp, string_append_nil]

/-- Claim C9 witness: the abort case at a concrete API value and the
`#define` shape at a concrete name. -/
theorem C9_witness :
    apiC9.make_bindings = none ∧
    extensionDefs ["GL_ARB_robustness"] 2 =
      some ("#define " ++ "GL_ARB_robustness" ++ " 1\nconstexpr Extension " ++
        strDrop "GL_ARB_robustness" 3 ++ "\x7b" ++ toString 2 ++ "\x7d;\n") := by
  constructor
  · exact C9_extension_assert.1 apiC9 "EXT_bogus" (by decide) (by decide)
  · exact C9_extension_assert.2.2 "GL_ARB_robustness" 2 (by decide)

-- ===========================================================================
-- Theorems: link-only extensions (claim C10)
-- ===========================================================================

theorem fromSpecsRuntime_lookup_none (known : List String) (l : List String)
    (acc m : List (String × CallType)) (e : String)
    (hok : fromSpecsRuntime known l acc = .ok m) (hnl : e ∉ l)
    (hacc : alLookup acc e = none) : alLookup m e = none := by
  induction l generalizing acc with
  | nil =>
    simp only [fromSpecsRuntime] at hok
    cases hok; exact hacc
  | cons x rest ih =>
    simp only [fromSpecsRuntime] at hok
    simp only [List.mem_cons, not_or] at hnl
    by_cases hx : x ∈ known
    · rw [if_pos hx] at hok
      refine ih _ hok hnl.2 ?_
      rw [alLookup_alInsert]
      have hxe : ¬ x = e := fun hh => hnl.1 hh.symm
      simp [hxe, hacc]
    · rw [if_neg hx] at hok; cases hok

theorem fromSpecsRuntime_error_unknown (known : List String) (l : List String)
    (acc : List (String × CallType)) (err : Error)
    (h : fromSpecsRuntime known l acc = .error err) :
    ∃ e2, e2 ∉ known ∧ err = .UnknownExtension e2 := by
  induction l generalizing acc with
  | nil => simp only [fromSpecsRuntime] at h; cases h
  | cons x rest ih =>
    simp only [fromSpecsRuntime] at h
    by_cases hx : x ∈ known
    · rw [if_pos hx] at h; exact ih _ h
    · rw [if_neg hx] at h
      cases h
      exact ⟨x, hx, rfl⟩

theorem fromSpecsLinker_lookup_none (known : List String) (l : List String)
    (acc m : List (String × CallType)) (e : String)
    (hok : fromSpecsLinker known l acc = .ok m)
    (hacc : alLookup acc e = none) : alLookup m e = none := by
  induction l generalizing acc with
  | nil =>
    simp only [fromSpecsLinker] at hok
    cases hok; exact hacc
  | cons x rest ih =>
    simp only [fromSpecsLinker] at hok
    by_cases hx : x ∈ known
    · rw [if_pos hx] at hok
      rcases hlk : alLookup acc x with _ | v
      · rw [hlk] at hok
        exact ih _ hok hacc
      · rw [hlk] at hok
        refine ih _ hok ?_
        rw [alLookup_alInsert]
        have hxe : ¬ x = e := by
          rintro rfl; rw [hacc] at hlk; cases hlk
        simp [hxe, hacc]
    · rw [if_neg hx] at hok; cases hok

theorem fromSpecsLinker_unknown (known : List String) (l : List String) :
    ∀ (acc : List (String × CallType)) (e : String), e ∈ l → e ∉ known →
    ∃ e2, e2 ∉ known ∧ fromSpecsLinker known l acc = .error (.UnknownExtension e2) := by
  induction l with
  | nil => intro acc e hel hek; cases hel
  | cons x rest ih =>
    intro acc e hel hek
    by_cases hx : x ∈ known
    · have hmem : e ∈ rest := by
        rcases List.mem_cons.mp hel with rfl | hmem
        · exact absurd hx hek
        · exact hmem
      rcases hlk : alLookup acc x with _ | v
      · obtain ⟨e2, h1, h2⟩ := ih acc e hmem hek
        exact ⟨e2, h1, by simp only [fromSpecsLinker, if_pos hx, hlk]; exact h2⟩
      · obtain ⟨e2, h1, h2⟩ := ih (alInsert acc x .Linker) e hmem hek
        exact ⟨e2, h1, by simp only [fromSpecsLinker, if_pos hx, hlk]; exact h2⟩
    · exact ⟨x, hx, by simp only [fromSpecsLinker, if_neg hx]⟩

/-- Claim C10: an extension name appearing only in the link-time APISpec's
extension list is still validated — `FeatureSpec::from_specs` fails with an
`UnknownExtension` error when some requested extension is not declared in
the registry — but otherwise contributes nothing: it is not added to the
requested-extension map, so `FeatureSet::parse_extension` on its
`<extension>` element leaves the feature set unchanged. -/
theorem C10_link_only_extension (api link : APISpec) (node : XmlNode) (e : String)
    (known : List String)
    (hKnown : all_extensions node = .ok known) (hLink : e ∈ link.extensions) :
    (e ∉ known →
      ∃ e2, e2 ∉ known ∧
        FeatureSpec.from_specs api link node = .error (.UnknownExtension e2)) ∧
    (∀ spec, FeatureSpec.from_specs api link node = .ok spec → e ∉ api.extensions →
      alLookup spec.extensions e = none ∧
      ∀ (s : FeatureSet) (extNode : XmlNode), extNode.attr "name" = some e →
        s.parse_extension extNode spec = .ok s) := by
  constructor
  · intro hek
    unfold FeatureSpec.from_specs
    rw [hKnown]
    rcases hrt : fromSpecsRuntime known api.extensions [] with err | exts
    · obtain ⟨e2, h1, h2⟩ := fromSpecsRuntime_error_unknown known api.extensions [] err hrt
      exact ⟨e2, h1, by simp only [hrt, h2]⟩
    · obtain ⟨e2, h1, h2⟩ := fromSpecsLinker_unknown known link.extensions exts e hLink hek
      exact ⟨e2, h1, by simp only [hrt, h2]⟩
  · intro spec hspec hna
    unfold FeatureSpec.from_specs at hspec
    rw [hKnown] at hspec
    rcases hrt : fromSpecsRuntime known api.extensions [] with err | exts
    · simp only [hrt] at hspec; cases hspec
    · simp only [hrt] at hspec
      rcases hlk : fromSpecsLinker known link.extensions exts with err | final
      · simp only [hlk] at hspec; cases hspec
      · simp only [hlk] at hspec
        cases hspec
        have h1 : alLookup exts e = none :=
          fromSpecsRuntime_lookup_none known api.extensions [] exts e hrt hna rfl
        have h2 : alLookup final e = none :=
          fromSpecsLinker_lookup_none known link.extensions exts final e hlk h1
        refine ⟨h2, fun s extNode hname => ?_⟩
        simp [FeatureSet.parse_extension, require_attribute, hname, h2]

/-- Claim C10 witness: a registry declaring only `GL_X`, requested only at
link time. -/
theorem C10_witness :
    alLookup (FeatureSpec.mk ⟨3, 3⟩ ⟨1, 1⟩ []).extensions "GL_X" = none ∧
    FeatureSet.parse_extension ⟨[], []⟩
      (.element "extension" [("name", "GL_X")] []) (FeatureSpec.mk ⟨3, 3⟩ ⟨1, 1⟩ []) =
      .ok ⟨[], []⟩ := by
  have h := (C10_link_only_extension ⟨⟨3, 3⟩, []⟩ ⟨⟨1, 1⟩, ["GL_X"]⟩ regC10 "GL_X"
    ["GL_X"] rfl (by decide)).2 (FeatureSpec.mk ⟨3, 3⟩ ⟨1, 1⟩ []) rfl (by decide)
  exact ⟨h.1, h.2 ⟨[], []⟩ (.element "extension" [("name", "GL_X")] []) rfl⟩

-- ===========================================================================
-- Theorems: header/data index synchronization (claim C6)
-- ===========================================================================

theorem string_append_assoc (a b c : String) : a ++ b ++ c = a ++ (b ++ c) := by
  cases a; cases b; cases c
  show String.mk _ = String.mk _
  simp

theorem packedNamesBytes_cons (n : String) (rest : List String) (h : rest ≠ []) :
    packedNamesBytes (n :: rest) = strBytes n ++ 0 :: packedNamesBytes rest := by
  cases rest with
  | nil => exact absurd rfl h
  | cons m r => simp [packedNamesBytes, namesBytesLoop]

theorem splitOnNul_no_nul (a : List Nat) (h : 0 ∉ a) : splitOnNul a = [a] := by
  induction a with
  | nil => rfl
  | cons b rest ih =>
    simp only [List.mem_cons, not_or] at h
    have hb : ¬ b = 0 := fun hh => h.1 hh.symm
    simp [splitOnNul, hb, ih h.2]

theorem splitOnNul_append (a t : List Nat) (h : 0 ∉ a) :
    splitOnNul (a ++ 0 :: t) = a :: splitOnNul t := by
  induction a with
  | nil => simp [splitOnNul]
  | cons b rest ih =>
    simp only [List.mem_cons, not_or] at h
    have hb : ¬ b = 0 := fun hh => h.1 hh.symm
    rw [List.cons_append]
    simp [splitOnNul, hb, ih h.2]

theorem splitOnNul_packed (names : List String) (hne : names ≠ [])
    (h : ∀ x ∈ names, 0 ∉ strBytes x) :
    splitOnNul (packedNamesBytes names) = names.map strBytes := by
  induction names with
  | nil => exact absurd rfl hne
  | cons n rest ih =>
    cases rest with
    | nil =>
      have h0 : 0 ∉ strBytes n := h n (List.mem_cons_self _ _)
      simp [packedNamesBytes, namesBytesLoop, splitOnNul_no_nul _ h0]
    | cons m r =>
      rw [packedNamesBytes_cons n (m :: r) (by simp)]
      rw [splitOnNul_append _ _ (h n (List.mem_cons_self _ _))]
      rw [ih (by simp) (fun x hx => h x (List.mem_cons_of_mem _ hx))]
      simp

theorem emitLoop_lookups (subset : Option (List String)) (fns : List Function) :
    ∀ (out : String) (lookups : List String),
    (Functions.emitLoop subset fns out lookups).lookups =
      lookups ++ runtimeLookupsSpec subset fns := by
  induction fns with
  | nil => intro out lookups; simp [Functions.emitLoop, runtimeLookupsSpec]
  | cons f rest ih =>
    intro out lookups
    cases hc : f.call with
    | Linker => simp [Functions.emitLoop, hc, ih, runtimeLookupsSpec, List.filter_cons]
    | Runtime =>
      by_cases hi : includeName subset f.name = true
      · simp [Functions.emitLoop, hc, hi, ih, runtimeLookupsSpec, List.filter_cons]
      · simp [Functions.emitLoop, hc, hi, ih, runtimeLookupsSpec, List.filter_cons]

theorem emitLoop_functions_grows (subset : Option (List String)) (fns : List Function) :
    ∀ (out : String) (lookups : List String), ∃ suffix,
    (Functions.emitLoop subset fns out lookups).functions = out ++ suffix := by
  induction fns with
  | nil =>
    intro out lookups
    exact ⟨"", (string_append_nil out).symm⟩
  | cons f rest ih =>
    intro out lookups
    cases hc : f.call with
    | Linker =>
      obtain ⟨suffix, hs⟩ := ih (out ++ Function.emit_linked f) lookups
      refine ⟨Function.emit_linked f ++ suffix, ?_⟩
      simp only [Functions.emitLoop, hc, hs, string_append_assoc]
    | Runtime =>
      by_cases hi : includeName subset f.name = true
      · obtain ⟨suffix, hs⟩ := ih (out ++ Function.emit_runtime f lookups.length)
          (lookups ++ [f.name])
        refine ⟨Function.emit_runtime f lookups.length ++ suffix, ?_⟩
        simp only [Functions.emitLoop, hc, hi, if_true, hs, string_append_assoc]
      · obtain ⟨suffix, hs⟩ := ih (out ++ Function.emit_missing f) lookups
        refine ⟨Function.emit_missing f ++ suffix, ?_⟩
        have hstep : Functions.emitLoop subset (f :: rest) out lookups =
            Functions.emitLoop subset rest (out ++ Function.emit_missing f) lookups := by
          simp only [Functions.emitLoop, hc]
          rw [if_neg hi]
        rw [hstep, hs, string_append_assoc]

theorem emitLoop_segment (subset : Option (List String)) (fns : List Function) :
    ∀ (out : String) (lookups : List String) (i : Nat),
    i < (runtimeLookupsSpec subset fns).length →
    ∃ f pre post, f ∈ fns ∧ f.call = .Runtime ∧ includeName subset f.name = true ∧
      (runtimeLookupsSpec subset fns).get? i = some f.name ∧
      (Functions.emitLoop subset fns out lookups).functions =
        pre ++ Function.emit_runtime f (lookups.length + i) ++ post := by
  induction fns with
  | nil => intro out lookups i hi; simp [runtimeLookupsSpec] at hi
  | cons f rest ih =>
    intro out lookups i hi
    cases hc : f.call with
    | Linker =>
      have hspec : runtimeLookupsSpec subset (f :: rest) = runtimeLookupsSpec subset rest := by
        simp [runtimeLookupsSpec, List.filter_cons, hc]
      rw [hspec] at hi
      obtain ⟨f', pre, post, hmem, hcall, hinc, hget, hfun⟩ :=
        ih (out ++ Function.emit_linked f) lookups i hi
      refine ⟨f', pre, post, List.mem_cons_of_mem _ hmem, hcall, hinc, ?_, ?_⟩
      · rw [hspec]; exact hget
      · simpa only [Functions.emitLoop, hc] using hfun
    | Runtime =>
      by_cases hinc : includeName subset f.name = true
      · have hspec : runtimeLookupsSpec subset (f :: rest) =
            f.name :: runtimeLookupsSpec subset rest := by
          simp [runtimeLookupsSpec, List.filter_cons, hc, hinc]
        cases i with
        | zero =>
          obtain ⟨suffix, hs⟩ := emitLoop_functions_grows subset rest
            (out ++ Function.emit_runtime f lookups.length) (lookups ++ [f.name])
          refine ⟨f, out, suffix, List.mem_cons_self _ _, hc, hinc, ?_, ?_⟩
          · rw [hspec]; rfl
          · simp only [Functions.emitLoop, hc, hinc, if_true]
            rw [hs, Nat.add_zero]
        | succ j =>
          rw [hspec] at hi
          have hj : j < (runtimeLookupsSpec subset rest).length := by
            simpa using Nat.lt_of_succ_lt_succ hi
          obtain ⟨f', pre, post, hmem, hcall, hinc', hget, hfun⟩ :=
            ih (out ++ Function.emit_runtime f lookups.length) (lookups ++ [f.name]) j hj
          have hidx : (lookups ++ [f.name]).length + j = lookups.length + (j + 1) := by
            simp; omega
          rw [hidx] at hfun
          refine ⟨f', pre, post, List.mem_cons_of_mem _ hmem, hcall, hinc', ?_, ?_⟩
          · rw [hspec]; simpa using hget
          · simpa only [Functions.emitLoop, hc, hinc, if_true] using hfun
      · have hspec : runtimeLookupsSpec subset (f :: rest) = runtimeLookupsSpec subset rest := by
          simp [runtimeLookupsSpec, List.filter_cons, hc, hinc]
        rw [hspec] at hi
        obtain ⟨f', pre, post, hmem, hcall, hinc', hget, hfun⟩ :=
          ih (out ++ Function.emit_missing f) lookups i hi
        refine ⟨f', pre, post, List.mem_cons_of_mem _ hmem, hcall, hinc', ?_, ?_⟩
        · rw [hspec]; exact hget
        · have : (Functions.emitLoop subset (f :: rest) out lookups).functions =
              (Functions.emitLoop subset rest (out ++ Function.emit_missing f) lookups).functions := by
            simp only [Functions.emitLoop, hc]
            rw [if_neg hinc]
          rw [this]; exact hfun

/-- Claim C6: for every binding generation, every index `i` into the
`lookups` list satisfies: the emitted function text contains the inline
wrapper of a Runtime command emitted at index `i` (that is,
`FunctionPointers[i]`) whose name is `lookups[i]`, and splitting the packed
`FunctionNames` byte string on NUL bytes and taking element `i` yields the
bytes of exactly that name — header and data stay index-synchronized
because both derive from the same `lookups` list. -/
theorem C6_index_synchronization (api : API) (subset : Option (List String))
    (hNul : ∀ name ∈ (Functions.emit api subset).lookups, 0 ∉ strBytes name) :
    ∀ i, i < (Functions.emit api subset).lookups.length →
      (∃ f pre post, f ∈ api.functions ∧ f.call = .Runtime ∧
        includeName subset f.name = true ∧
        (Functions.emit api subset).lookups.get? i = some f.name ∧
        (Functions.emit api subset).functions =
          pre ++ Function.emit_runtime f i ++ post) ∧
      (∀ name, (Functions.emit api subset).lookups.get? i = some name →
        (splitOnNul (packedNamesBytes (Functions.emit api subset).lookups)).get? i =
          some (strBytes name)) := by
  have hlk : (Functions.emit api subset).lookups = runtimeLookupsSpec subset api.functions := by
    have h := emitLoop_lookups subset api.functions "" []
    simpa [Functions.emit] using h
  intro i hi
  constructor
  · have hi' : i < (runtimeLookupsSpec subset api.functions).length := by
      rw [hlk] at hi; exact hi
    obtain ⟨f, pre, post, hmem, hcall, hinc, hget, hfun⟩ :=
      emitLoop_segment subset api.functions "" [] i hi'
    refine ⟨f, pre, post, hmem, hcall, hinc, ?_, ?_⟩
    · rw [hlk]; exact hget
    · simpa [Functions.emit] using hfun
  · intro name hname
    have hne : (Functions.emit api subset).lookups ≠ [] := by
      intro hh; rw [hh] at hi; simp at hi
    rw [splitOnNul_packed _ hne hNul, List.get?_map, hname]
    rfl

/-- Claim C6 witness: an API with two Runtime commands, full surface; the
name table element at index 1 is the second lookup's name. -/
theorem C6_witness :
    (splitOnNul (packedNamesBytes (Functions.emit apiC6 none).lookups)).get? 1 =
      some (strBytes "glBar") :=
  (C6_index_synchronization apiC6 none (by decide) 1 (by decide)).2 "glBar" (by decide)

-- ===========================================================================
-- Theorems: characterization of the resolver loops (claims C5, C8)
-- ===========================================================================

theorem requireItems_char (av : CallType) (l : List XmlNode) :
    ∀ s s2, requireItems av s l = .ok s2 →
    (∀ k, alLookup s2.commands k =
      if k ∈ cmdChildNames l then some av else alLookup s.commands k) ∧
    (∀ e, e ∈ s2.enums ↔ e ∈ enumChildNames l ∨ e ∈ s.enums) := by
  induction l with
  | nil =>
    intro s s2 h
    simp only [requireItems] at h
    cases h
    simp [cmdChildNames, enumChildNames]
  | cons child rest ih =>
    intro s s2 h
    by_cases hE : child.isElement = true
    · by_cases ht1 : child.tagName = "command"
      · rcases hn : child.attr "name" with _ | name
        · simp only [requireItems, hE, if_true, ht1, require_attribute, hn] at h
          cases h
        · simp only [requireItems, hE, if_true, ht1, require_attribute, hn] at h
          obtain ⟨ihc, ihe⟩ := ih _ _ h
          have hcn : cmdChildNames (child :: rest) = name :: cmdChildNames rest := by
            simp [cmdChildNames, hE, ht1, hn]
          have hen : enumChildNames (child :: rest) = enumChildNames rest := by
            simp [enumChildNames, hE, ht1]
          constructor
          · intro k
            rw [ihc k, hcn]
            simp only
            rw [alLookup_alInsert]
            by_cases h1 : k ∈ cmdChildNames rest
            · simp [h1]
            · by_cases h2 : name = k
              · simp [h1, h2]
              · have h2' : ¬ k = name := fun hh => h2 hh.symm
                simp [h1, h2, h2']
          · intro e
            rw [ihe e, hen]
      · by_cases ht2 : child.tagName = "enum"
        · rcases hn : child.attr "name" with _ | name
          · simp [requireItems, hE, ht1, ht2, require_attribute, hn] at h
          · simp only [requireItems, hE, if_true, ht1, ht2, require_attribute, hn,
              if_false, if_true] at h
            obtain ⟨ihc, ihe⟩ := ih _ _ h
            have hcn : cmdChildNames (child :: rest) = cmdChildNames rest := by
              simp [cmdChildNames, hE, ht1]
            have hen : enumChildNames (child :: rest) = name :: enumChildNames rest := by
              simp [enumChildNames, hE, ht2, hn]
            constructor
            · intro k; rw [ihc k, hcn]
            · intro e
              rw [ihe e, hen, mem_setInsert]
              simp only [List.mem_cons]
              tauto
        · by_cases ht3 : child.tagName = "type"
          · simp only [requireItems, hE, if_true, ht1, ht2, ht3, if_false, if_true] at h
            obtain ⟨ihc, ihe⟩ := ih _ _ h
            have hcn : cmdChildNames (child :: rest) = cmdChildNames rest := by
              simp [cmdChildNames, hE, ht1]
            have hen : enumChildNames (child :: rest) = enumChildNames rest := by
              simp [enumChildNames, hE, ht2]
            exact ⟨fun k => by rw [ihc k, hcn], fun e => by rw [ihe e, hen]⟩
          · simp [requireItems, hE, ht1, ht2, ht3] at h
    · have hE' : child.isElement = false := by
        cases hb : child.isElement
        · rfl
        · exact absurd hb hE
      simp only [requireItems, hE', Bool.false_eq_true, if_false] at h
      obtain ⟨ihc, ihe⟩ := ih _ _ h
      have hcn : cmdChildNames (child :: rest) = cmdChildNames rest := by
        simp [cmdChildNames, hE']
      have hen : enumChildNames (child :: rest) = enumChildNames rest := by
        simp [enumChildNames, hE']
      exact ⟨fun k => by rw [ihc k, hcn], fun e => by rw [ihe e, hen]⟩

theorem removeItems_char (l : List XmlNode) :
    ∀ s s2, removeItems s l = .ok s2 →
    (∀ k, alLookup s2.commands k =
      if k ∈ cmdChildNames l then none else alLookup s.commands k) ∧
    (∀ e, e ∈ s2.enums ↔ e ∉ enumChildNames l ∧ e ∈ s.enums) := by
  induction l with
  | nil =>
    intro s s2 h
    simp only [removeItems] at h
    cases h
    simp [cmdChildNames, enumChildNames]
  | cons child rest ih =>
    intro s s2 h
    by_cases hE : child.isElement = true
    · by_cases ht1 : child.tagName = "command"
      · rcases hn : child.attr "name" with _ | name
        · simp only [removeItems, hE, if_true, ht1, require_attribute, hn] at h
          cases h
        · simp only [removeItems, hE, if_true, ht1, require_attribute, hn] at h
          obtain ⟨ihc, ihe⟩ := ih _ _ h
          have hcn : cmdChildNames (child :: rest) = name :: cmdChildNames rest := by
            simp [cmdChildNames, hE, ht1, hn]
          have hen : enumChildNames (child :: rest) = enumChildNames rest := by
            simp [enumChildNames, hE, ht1]
          constructor
          · intro k
            rw [ihc k, hcn]
            simp only
            rw [alLookup_alRemove]
            by_cases h1 : k ∈ cmdChildNames rest
            · simp [h1]
            · by_cases h2 : name = k
              · simp [h1, h2]
              · have h2' : ¬ k = name := fun hh => h2 hh.symm
                simp [h1, h2, h2']
          · intro e
            rw [ihe e, hen]
      · by_cases ht2 : child.tagName = "enum"
        · rcases hn : child.attr "name" with _ | name
          · simp [removeItems, hE, ht1, ht2, require_attribute, hn] at h
          · simp only [removeItems, hE, if_true, ht1, ht2, require_attribute, hn,
              if_false, if_true] at h
            obtain ⟨ihc, ihe⟩ := ih _ _ h
            have hcn : cmdChildNames (child :: rest) = cmdChildNames rest := by
              simp [cmdChildNames, hE, ht1]
            have hen : enumChildNames (child :: rest) = name :: enumChildNames rest := by
              simp [enumChildNames, hE, ht2, hn]
            constructor
            · intro k; rw [ihc k, hcn]
            · intro e
              rw [ihe e, hen, mem_setRemove]
              simp only [List.mem_cons, not_or]
              tauto
        · by_cases ht3 : child.tagName = "type"
          · simp only [removeItems, hE, if_true, ht1, ht2, ht3, if_false, if_true] at h
            obtain ⟨ihc, ihe⟩ := ih _ _ h
            have hcn : cmdChildNames (child :: rest) = cmdChildNames rest := by
              simp [cmdChildNames, hE, ht1]
            have hen : enumChildNames (child :: rest) = enumChildNames rest := by
              simp [enumChildNames, hE, ht2]
            exact ⟨fun k => by rw [ihc k, hcn], fun e => by rw [ihe e, hen]⟩
          · simp [removeItems, hE, ht1, ht2, ht3] at h
    · have hE' : child.isElement = false := by
        cases hb : child.isElement
        · rfl
        · exact absurd hb hE
      simp only [removeItems, hE', Bool.false_eq_true, if_false] at h
      obtain ⟨ihc, ihe⟩ := ih _ _ h
      have hcn : cmdChildNames (child :: rest) = cmdChildNames rest := by
        simp [cmdChildNames, hE']
      have hen : enumChildNames (child :: rest) = enumChildNames rest := by
        simp [enumChildNames, hE']
      exact ⟨fun k => by rw [ihc k, hcn], fun e => by rw [ihe e, hen]⟩

theorem featureChildren_commands (av : CallType) (l : List XmlNode) :
    ∀ s s2, featureChildren av s l = .ok s2 →
    ∀ k, alLookup s2.commands k =
      match featLastCmdAct l k with
      | some true => some av
      | some false => none
      | none => alLookup s.commands k := by
  induction l with
  | nil =>
    intro s s2 h k
    simp only [featureChildren] at h
    cases h
    simp [featLastCmdAct]
  | cons child rest ih =>
    intro s s2 h k
    by_cases hE : child.isElement = true
    · by_cases ht1 : child.tagName = "require"
      · rcases hreq : FeatureSet.parse_require s child av with e | s1
        · simp only [featureChildren, hE, if_true, ht1, hreq] at h
          cases h
        · simp only [featureChildren, hE, if_true, ht1, hreq] at h
          have ihk := ih _ _ h k
          have hc := (requireItems_char av child.children s s1 hreq).1 k
          rw [ihk]
          simp only [featLastCmdAct, hE, ht1, if_true]
          rcases featLastCmdAct rest k with _ | b
          · simp only
            by_cases hmem : k ∈ cmdChildNames child.children
            · rw [if_pos hmem]
              rw [hc, if_pos hmem]
            · rw [if_neg hmem]
              rw [hc, if_neg hmem]
          · cases b <;> rfl
      · by_cases ht2 : child.tagName = "remove"
        · rcases hp : child.attr "profile" with _ | profile
          · simp [featureChildren, hE, ht1, ht2, FeatureSet.parse_remove,
              require_attribute, hp] at h
          · by_cases hcore : profile = "core"
            · subst hcore
              rcases hrem : removeItems s child.children with e | s1
              · simp [featureChildren, hE, ht1, ht2, FeatureSet.parse_remove,
                  require_attribute, hp, hrem] at h
              · simp [featureChildren, hE, ht1, ht2, FeatureSet.parse_remove,
                  require_attribute, hp, hrem] at h
                have ihk := ih _ _ h k
                have hc := (removeItems_char child.children s s1 hrem).1 k
                rw [ihk]
                simp only [featLastCmdAct, hE, ht1, ht2, if_true, if_false]
                rcases featLastCmdAct rest k with _ | b
                · simp only
                  by_cases hmem : k ∈ cmdChildNames child.children
                  · rw [if_pos hmem]
                    rw [hc, if_pos hmem]
                  · rw [if_neg hmem]
                    rw [hc, if_neg hmem]
                · cases b <;> rfl
            · simp [featureChildren, hE, ht1, ht2, FeatureSet.parse_remove,
                require_attribute, hp, hcore] at h
        · simp [featureChildren, hE, ht1, ht2] at h
    · have hE' : child.isElement = false := by
        cases hb : child.isElement
        · rfl
        · exact absurd hb hE
      simp only [featureChildren, hE', Bool.false_eq_true, if_false] at h
      have ihk := ih _ _ h k
      rw [ihk]
      simp only [featLastCmdAct, hE', Bool.false_eq_true, if_false]
      rcases featLastCmdAct rest k with _ | b
      · rfl
      · cases b <;> rfl

theorem not_mem_concatMap {α : Type} (f : α → List String) (l : List α) (c : String)
    (h : c ∉ concatMap f l) : ∀ x ∈ l, c ∉ f x := by
  induction l with
  | nil => intro x hx; cases hx
  | cons a rest ih =>
    intro x hx
    simp only [concatMap, List.mem_append, not_or] at h
    rcases List.mem_cons.mp hx with rfl | hx'
    · exact h.1
    · exact ih h.2 x hx'

theorem featLastCmdAct_eq_none (l : List XmlNode) (c : String)
    (h : c ∉ concatMap (fun ch => if ch.isElement then cmdChildNames ch.children else []) l) :
    featLastCmdAct l c = none := by
  induction l with
  | nil => rfl
  | cons ch rest ih =>
    simp only [concatMap, List.mem_append, not_or] at h
    rw [featLastCmdAct, ih h.2]
    have hh := h.1
    by_cases hE : ch.isElement = true
    · rw [if_pos hE] at hh
      by_cases ht1 : ch.tagName = "require"
      · simp [hE, ht1, hh]
      · by_cases ht2 : ch.tagName = "remove"
        · simp [hE, ht1, ht2, hh]
        · simp [hE, ht1, ht2]
    · simp [hE]

theorem parse_feature_eq_of_attrs (s : FeatureSet) (node : XmlNode) (spec : FeatureSpec)
    (vs : String) (v : Version)
    (hApi : node.attr "api" = some "gl") (hNum : node.attr "number" = some vs)
    (hV : Version.parse vs = some v) :
    s.parse_feature node spec =
      if Version.lt spec.max_version v then .ok s
      else featureChildren
        (if Version.le v spec.linkable_version then .Linker else .Runtime)
        s node.children := by
  simp [FeatureSet.parse_feature, require_attribute, hApi, hNum, hV]

theorem parse_feature_untouched (s s2 : FeatureSet) (node : XmlNode) (spec : FeatureSpec)
    (c : String) (h : s.parse_feature node spec = .ok s2)
    (hc : c ∉ featureCmdNames node) :
    alLookup s2.commands c = alLookup s.commands c := by
  unfold FeatureSet.parse_feature at h
  rcases hApi : node.attr "api" with _ | a
  · simp only [require_attribute, hApi] at h; cases h
  · simp only [require_attribute, hApi] at h
    by_cases ha : a = "gl"
    · subst ha
      rw [if_neg (by simp)] at h
      rcases hNum : node.attr "number" with _ | vs
      · simp only [require_attribute, hNum] at h; cases h
      · simp only [require_attribute, hNum] at h
        rcases hV : Version.parse vs with _ | v
        · simp only [hV] at h; cases h
        · simp only [hV] at h
          by_cases hlt : Version.lt spec.max_version v = true
          · rw [if_pos hlt] at h; cases h; rfl
          · rw [if_neg hlt] at h
            have := featureChildren_commands _ node.children s s2 h c
            rw [this, featLastCmdAct_eq_none node.children c hc]
    · rw [if_pos (by simp [ha])] at h
      cases h; rfl

theorem extensionItems_char (ct : CallType) (l : List XmlNode) :
    ∀ s s2, extensionItems ct s l = .ok s2 →
    (∀ k, alLookup s2.commands k =
      if k ∈ extReqCmdNames l then some ct else alLookup s.commands k) ∧
    (∀ e, e ∈ s2.enums ↔ e ∈ extReqEnumNames l ∨ e ∈ s.enums) := by
  induction l with
  | nil =>
    intro s s2 h
    simp only [extensionItems] at h
    cases h
    simp [extReqCmdNames, extReqEnumNames, concatMap]
  | cons child rest ih =>
    intro s s2 h
    by_cases hE : child.isElement = true
    · by_cases ht1 : child.tagName = "require"
      · rcases hreq : FeatureSet.parse_require s child ct with e | s1
        · simp only [extensionItems, hE, if_true, ht1, hreq] at h
          cases h
        · simp only [extensionItems, hE, if_true, ht1, hreq] at h
          obtain ⟨ihc, ihe⟩ := ih _ _ h
          obtain ⟨hrc, hre⟩ := requireItems_char ct child.children s s1 hreq
          have hcn : extReqCmdNames (child :: rest) =
              cmdChildNames child.children ++ extReqCmdNames rest := by
            simp [extReqCmdNames, concatMap, hE, ht1]
          have hen : extReqEnumNames (child :: rest) =
              enumChildNames child.children ++ extReqEnumNames rest := by
            simp [extReqEnumNames, concatMap, hE, ht1]
          constructor
          · intro k
            rw [ihc k, hrc k, hcn]
            by_cases h1 : k ∈ extReqCmdNames rest
            · simp [h1]
            · by_cases h2 : k ∈ cmdChildNames child.children
              · simp [h1, h2]
              · simp [h1, h2]
          · intro e
            rw [ihe e, hre e, hen]
            simp only [List.mem_append]
            tauto
      · simp [extensionItems, hE, ht1] at h
    · have hE' : child.isElement = false := by
        cases hb : child.isElement
        · rfl
        · exact absurd hb hE
      simp only [extensionItems, hE', Bool.false_eq_true, if_false] at h
      obtain ⟨ihc, ihe⟩ := ih _ _ h
      have hcn : extReqCmdNames (child :: rest) = extReqCmdNames rest := by
        simp [extReqCmdNames, concatMap, hE']
      have hen : extReqEnumNames (child :: rest) = extReqEnumNames rest := by
        simp [extReqEnumNames, concatMap, hE']
      exact ⟨fun k => by rw [ihc k, hcn], fun e => by rw [ihe e, hen]⟩

theorem mem_extReqCmdNames_imp (l : List XmlNode) (c : String)
    (h : c ∈ extReqCmdNames l) :
    c ∈ concatMap (fun ch => if ch.isElement then cmdChildNames ch.children else []) l := by
  induction l with
  | nil => cases h
  | cons ch rest ih =>
    simp only [extReqCmdNames, concatMap, List.mem_append] at h ⊢
    rcases h with h | h
    · left
      by_cases hE : ch.isElement = true
      · by_cases ht : ch.tagName = "require"
        · simp [hE, ht] at h
          simp [hE, h]
        · simp [hE, ht] at h
      · simp [hE] at h
    · right; exact ih h

theorem parse_extension_untouched (s s2 : FeatureSet) (node : XmlNode) (spec : FeatureSpec)
    (c : String) (h : s.parse_extension node spec = .ok s2)
    (hc : c ∉ featureCmdNames node) :
    alLookup s2.commands c = alLookup s.commands c := by
  unfold FeatureSet.parse_extension at h
  rcases hn : node.attr "name" with _ | nm
  · simp only [require_attribute, hn] at h; cases h
  · simp only [require_attribute, hn] at h
    rcases hlk : alLookup spec.extensions nm with _ | ct
    · rw [hlk] at h; cases h; rfl
    · rw [hlk] at h
      have hchar := (extensionItems_char ct node.children s s2 h).1 c
      rw [hchar]
      have : c ∉ extReqCmdNames node.children := by
        intro hmem
        exact hc (mem_extReqCmdNames_imp node.children c hmem)
      rw [if_neg this]

theorem extensionList_untouched (api : FeatureSpec) (c : String) (items : List XmlNode) :
    ∀ s s2, extensionList api s items = .ok s2 →
    (∀ item ∈ items, c ∉ featureCmdNames item) →
    alLookup s2.commands c = alLookup s.commands c := by
  induction items with
  | nil =>
    intro s s2 h _
    simp only [extensionList] at h
    cases h; rfl
  | cons item rest ih =>
    intro s s2 h hc
    rcases hx : FeatureSet.parse_extension s item api with e | s1
    · simp only [extensionList, hx] at h
      cases h
    · simp only [extensionList, hx] at h
      rw [ih _ _ h (fun i hi => hc i (List.mem_cons_of_mem _ hi))]
      exact parse_extension_untouched s s1 item api c hx (hc item (List.mem_cons_self _ _))

theorem buildChildren_append (api : FeatureSpec) (l1 l2 : List XmlNode) :
    ∀ s, buildChildren api s (l1 ++ l2) =
      match buildChildren api s l1 with
      | .error e => .error e
      | .ok s1 => buildChildren api s1 l2 := by
  induction l1 with
  | nil => intro s; simp [buildChildren]
  | cons child rest ih =>
    intro s
    by_cases hE : child.isElement = true
    · by_cases ht1 : child.tagName = "feature"
      · rcases hf : s.parse_feature child api with e | s1
        · simp [List.cons_append, buildChildren, hE, ht1, hf]
        · simp only [List.cons_append, buildChildren, hE, if_true, ht1, hf]
          exact ih s1
      · by_cases ht2 : child.tagName = "extensions"
        · rcases hx : extensionList api s (elementChildrenTag child "extension") with e | s1
          · simp [List.cons_append, buildChildren, hE, ht1, ht2, hx]
          · simp only [List.cons_append, buildChildren, hE, if_true] at *
            rw [if_neg ht1, if_neg ht1, if_pos ht2, if_pos ht2, hx]
            exact ih s1
        · simp only [List.cons_append, buildChildren, hE, if_true]
          rw [if_neg ht1, if_neg ht1, if_neg ht2, if_neg ht2]
          exact ih s
    · have hE' : child.isElement = false := by
        cases hb : child.isElement
        · rfl
        · exact absurd hb hE
      simp only [List.cons_append, buildChildren, hE', Bool.false_eq_true, if_false]
      exact ih s

theorem buildChildren_untouched (api : FeatureSpec) (c : String) (l : List XmlNode) :
    ∀ s s2, buildChildren api s l = .ok s2 →
    (∀ x ∈ l, cmdUntouched c x) →
    alLookup s2.commands c = alLookup s.commands c := by
  induction l with
  | nil =>
    intro s s2 h _
    simp only [buildChildren] at h
    cases h; rfl
  | cons child rest ih =>
    intro s s2 h hc
    have hrest : ∀ x ∈ rest, cmdUntouched c x :=
      fun x hx => hc x (List.mem_cons_of_mem _ hx)
    have hhead := hc child (List.mem_cons_self _ _)
    by_cases hE : child.isElement = true
    · by_cases ht1 : child.tagName = "feature"
      · rcases hf : s.parse_feature child api with e | s1
        · simp only [buildChildren, hE, if_true, ht1, hf] at h
          cases h
        · simp only [buildChildren, hE, if_true, ht1, hf] at h
          rw [ih _ _ h hrest]
          exact parse_feature_untouched s s1 child api c hf (hhead.1 ht1)
      · by_cases ht2 : child.tagName = "extensions"
        · rcases hx : extensionList api s (elementChildrenTag child "extension") with e | s1
          · simp only [buildChildren, hE, if_true] at h
            rw [if_neg ht1, if_pos ht2, hx] at h
            cases h
          · simp only [buildChildren, hE, if_true] at h
            rw [if_neg ht1, if_pos ht2, hx] at h
            rw [ih _ _ h hrest]
            refine extensionList_untouched api c _ s s1 hx ?_
            exact not_mem_concatMap featureCmdNames _ c (hhead.2 ht2)
        · simp only [buildChildren, hE, if_true] at h
          rw [if_neg ht1, if_neg ht2] at h
          exact ih _ _ h hrest
    · have hE' : child.isElement = false := by
        cases hb : child.isElement
        · rfl
        · exact absurd hb hE
      simp only [buildChildren, hE', Bool.false_eq_true, if_false] at h
      exact ih _ _ h hrest

/-- Claim C5: in a registry whose features appear in document order, if the
feature with version `N` adds command `c` via `<require>`, a later feature
with version `M > N` deletes it via `<remove profile="core">`, and no other
registry child between or after them mentions `c`, then resolving with
`max_version >= M` leaves `c` absent from the final commands map, and
resolving with `N <= max_version < M` leaves it present. -/
theorem C5_remove_correctness
    (rattrs : List (String × String)) (pre mid post : List XmlNode)
    (fN fM : XmlNode) (spec : FeatureSpec) (fs : FeatureSet) (c : String)
    (sN sM : String) (vN vM : Version)
    (hNE : fN.isElement = true) (hNT : fN.tagName = "feature")
    (hNApi : fN.attr "api" = some "gl") (hNNum : fN.attr "number" = some sN)
    (hNV : Version.parse sN = some vN)
    (hNact : featLastCmdAct fN.children c = some true)
    (hME : fM.isElement = true) (hMT : fM.tagName = "feature")
    (hMApi : fM.attr "api" = some "gl") (hMNum : fM.attr "number" = some sM)
    (hMV : Version.parse sM = some vM)
    (hMact : featLastCmdAct fM.children c = some false)
    (hNM : Version.lt vN vM = true)
    (hmid : ∀ x ∈ mid, cmdUntouched c x) (hpost : ∀ x ∈ post, cmdUntouched c x)
    (hbuild : FeatureSet.build
      (.element "registry" rattrs (pre ++ (fN :: (mid ++ (fM :: post))))) spec = .ok fs) :
    (Version.le vM spec.max_version = true → alLookup fs.commands c = none) ∧
    (Version.le vN spec.max_version = true → Version.lt spec.max_version vM = true →
      (alLookup fs.commands c).isSome = true) := by
  unfold FeatureSet.build at hbuild
  simp only [XmlNode.children] at hbuild
  rw [buildChildren_append spec pre _] at hbuild
  rcases hpre : buildChildren spec ⟨[], []⟩ pre with e | s1
  · simp only [hpre] at hbuild; cases hbuild
  · simp only [hpre] at hbuild
    simp only [buildChildren, hNE, if_true, hNT] at hbuild
    rcases hfN : s1.parse_feature fN spec with e | s2
    · simp only [hfN] at hbuild; cases hbuild
    · simp only [hfN] at hbuild
      rw [buildChildren_append spec mid _] at hbuild
      rcases hmidr : buildChildren spec s2 mid with e | s3
      · simp only [hmidr] at hbuild; cases hbuild
      · simp only [hmidr] at hbuild
        simp only [buildChildren, hME, if_true, hMT] at hbuild
        rcases hfM : s3.parse_feature fM spec with e | s4
        · simp only [hfM] at hbuild; cases hbuild
        · simp only [hfM] at hbuild
          have hfin : alLookup fs.commands c = alLookup s4.commands c :=
            buildChildren_untouched spec c post s4 fs hbuild hpost
          have hmideq : alLookup s3.commands c = alLookup s2.commands c :=
            buildChildren_untouched spec c mid s2 s3 hmidr hmid
          constructor
          · intro hMle
            have hMnotlt : Version.lt spec.max_version vM = false :=
              (Version.lt_eq_false_iff_le spec.max_version vM).mpr hMle
            rw [parse_feature_eq_of_attrs s3 fM spec sM vM hMApi hMNum hMV] at hfM
            rw [hMnotlt] at hfM
            simp only [Bool.false_eq_true, if_false] at hfM
            have := featureChildren_commands _ fM.children s3 s4 hfM c
            rw [hMact] at this
            rw [hfin, this]
          · intro hNle hMgt
            rw [parse_feature_eq_of_attrs s3 fM spec sM vM hMApi hMNum hMV] at hfM
            rw [hMgt] at hfM
            simp only [if_true] at hfM
            cases hfM
            have hNnotlt : Version.lt spec.max_version vN = false :=
              (Version.lt_eq_false_iff_le spec.max_version vN).mpr hNle
            rw [parse_feature_eq_of_attrs s1 fN spec sN vN hNApi hNNum hNV] at hfN
            rw [hNnotlt] at hfN
            simp only [Bool.false_eq_true, if_false] at hfN
            have := featureChildren_commands _ fN.children s1 s2 hfN c
            rw [hNact] at this
            rw [hfin, hmideq, this]
            rfl

/-- Claim C5 witness: `glFoo` added in feature 1.0 and removed in feature
1.1; resolving at 1.1 drops it, resolving at 1.0 keeps it. -/
theorem C5_witness :
    alLookup (FeatureSet.mk [] []).commands "glFoo" = none ∧
    (alLookup (FeatureSet.mk [] [("glFoo", CallType.Linker)]).commands "glFoo").isSome
      = true := by
  constructor
  · exact (C5_remove_correctness [] [] [] [] featC5a featC5b ⟨⟨1, 1⟩, ⟨1, 0⟩, []⟩
      ⟨[], []⟩ "glFoo" "1.0" "1.1" ⟨1, 0⟩ ⟨1, 1⟩ rfl rfl rfl rfl (by decide) (by decide)
      rfl rfl rfl rfl (by decide) (by decide) (by decide) (by simp) (by simp) rfl).1
      (by decide)
  · exact (C5_remove_correctness [] [] [] [] featC5a featC5b ⟨⟨1, 0⟩, ⟨1, 0⟩, []⟩
      ⟨[], [("glFoo", CallType.Linker)]⟩ "glFoo" "1.0" "1.1" ⟨1, 0⟩ ⟨1, 1⟩
      rfl rfl rfl rfl (by decide) (by decide)
      rfl rfl rfl rfl (by decide) (by decide) (by decide) (by simp) (by simp) rfl).2
      (by decide) (by decide)

theorem keySub_refl (s : FeatureSet) : keySub s s :=
  ⟨fun _ h => h, fun _ h => h⟩

theorem keySub_trans {a b c : FeatureSet} (h1 : keySub a b) (h2 : keySub b c) :
    keySub a c :=
  ⟨fun e he => h2.1 e (h1.1 e he), fun k hk => h2.2 k (h1.2 k hk)⟩

theorem Version.le_of_lt (a b : Version) (h : Version.lt a b = true) :
    Version.le a b = true := by
  cases a; cases b
  simp [Version.lt, Version.le] at *
  omega

theorem Version.le_trans (a b c : Version) (h1 : Version.le a b = true)
    (h2 : Version.le b c = true) : Version.le a c = true := by
  cases a; cases b; cases c
  simp [Version.le] at *
  omega

theorem requireItems_keySub (av : CallType) (l : List XmlNode) (s s2 : FeatureSet)
    (h : requireItems av s l = .ok s2) : keySub s s2 := by
  obtain ⟨hc, he⟩ := requireItems_char av l s s2 h
  constructor
  · exact fun e hmem => (he e).mpr (Or.inr hmem)
  · intro k hk
    rw [hc k]
    by_cases hm : k ∈ cmdChildNames l
    · simp [hm]
    · simp [hm]; exact hk

theorem requireItems_pair (av1 av2 : CallType) (l : List XmlNode)
    (s1 s2 t1 t2 : FeatureSet) (hR : keySub s1 s2)
    (h1 : requireItems av1 s1 l = .ok t1) (h2 : requireItems av2 s2 l = .ok t2) :
    keySub t1 t2 := by
  obtain ⟨hc1, he1⟩ := requireItems_char av1 l s1 t1 h1
  obtain ⟨hc2, he2⟩ := requireItems_char av2 l s2 t2 h2
  constructor
  · intro e hmem
    rcases (he1 e).mp hmem with h | h
    · exact (he2 e).mpr (Or.inl h)
    · exact (he2 e).mpr (Or.inr (hR.1 e h))
  · intro k hk
    rw [hc1 k] at hk
    rw [hc2 k]
    by_cases hm : k ∈ cmdChildNames l
    · simp [hm]
    · rw [if_neg hm] at hk ⊢
      exact hR.2 k hk

theorem featureChildren_noRemove_growth (av : CallType) (l : List XmlNode)
    (hnr : ∀ ch ∈ l, ch.tagName ≠ "remove") :
    ∀ s s2, featureChildren av s l = .ok s2 → keySub s s2 := by
  induction l with
  | nil =>
    intro s s2 h
    simp only [featureChildren] at h
    cases h
    exact keySub_refl _
  | cons child rest ih =>
    intro s s2 h
    have hrest : ∀ ch ∈ rest, ch.tagName ≠ "remove" :=
      fun ch hch => hnr ch (List.mem_cons_of_mem _ hch)
    by_cases hE : child.isElement = true
    · by_cases ht1 : child.tagName = "require"
      · rcases hreq : FeatureSet.parse_require s child av with e | s1
        · simp only [featureChildren, hE, if_true, ht1, hreq] at h
          cases h
        · simp only [featureChildren, hE, if_true, ht1, hreq] at h
          exact keySub_trans (requireItems_keySub av child.children s s1 hreq)
            (ih hrest _ _ h)
      · have ht2 : ¬ child.tagName = "remove" := hnr child (List.mem_cons_self _ _)
        simp [featureChildren, hE, ht1, ht2] at h
    · have hE' : child.isElement = false := by
        cases hb : child.isElement
        · rfl
        · exact absurd hb hE
      simp only [featureChildren, hE', Bool.false_eq_true, if_false] at h
      exact ih hrest _ _ h

theorem featureChildren_pair (av1 av2 : CallType) (l : List XmlNode)
    (hnr : ∀ ch ∈ l, ch.tagName ≠ "remove") :
    ∀ s1 s2 t1 t2, keySub s1 s2 → featureChildren av1 s1 l = .ok t1 →
    featureChildren av2 s2 l = .ok t2 → keySub t1 t2 := by
  induction l with
  | nil =>
    intro s1 s2 t1 t2 hR h1 h2
    simp only [featureChildren] at h1 h2
    cases h1; cases h2
    exact hR
  | cons child rest ih =>
    intro s1 s2 t1 t2 hR h1 h2
    have hrest : ∀ ch ∈ rest, ch.tagName ≠ "remove" :=
      fun ch hch => hnr ch (List.mem_cons_of_mem _ hch)
    by_cases hE : child.isElement = true
    · by_cases ht1 : child.tagName = "require"
      · rcases hreq1 : FeatureSet.parse_require s1 child av1 with e | u1
        · simp only [featureChildren, hE, if_true, ht1, hreq1] at h1
          cases h1
        · rcases hreq2 : FeatureSet.parse_require s2 child av2 with e | u2
          · simp only [featureChildren, hE, if_true, ht1, hreq2] at h2
            cases h2
          · simp only [featureChildren, hE, if_true, ht1, hreq1] at h1
            simp only [featureChildren, hE, if_true, ht1, hreq2] at h2
            exact ih hrest u1 u2 t1 t2
              (requireItems_pair av1 av2 child.children s1 s2 u1 u2 hR hreq1 hreq2)
              h1 h2
      · have ht2 : ¬ child.tagName = "remove" := hnr child (List.mem_cons_self _ _)
        simp [featureChildren, hE, ht1, ht2] at h1
    · have hE' : child.isElement = false := by
        cases hb : child.isElement
        · rfl
        · exact absurd hb hE
      simp only [featureChildren, hE', Bool.false_eq_true, if_false] at h1 h2
      exact ih hrest _ _ _ _ hR h1 h2

theorem parse_feature_pair (node : XmlNode) (spec1 spec2 : FeatureSpec)
    (s1 s2 t1 t2 : FeatureSet)
    (hlink : spec1.linkable_version = spec2.linkable_version)
    (hmax : Version.le spec1.max_version spec2.max_version = true)
    (hnrc : ∀ ch ∈ node.children, ch.tagName ≠ "remove")
    (hR : keySub s1 s2)
    (h1 : s1.parse_feature node spec1 = .ok t1)
    (h2 : s2.parse_feature node spec2 = .ok t2) : keySub t1 t2 := by
  unfold FeatureSet.parse_feature at h1 h2
  rcases hApi : node.attr "api" with _ | a
  · simp only [require_attribute, hApi] at h1; cases h1
  · simp only [require_attribute, hApi] at h1 h2
    by_cases ha : a = "gl"
    · subst ha
      rw [if_neg (by simp)] at h1 h2
      rcases hNum : node.attr "number" with _ | vs
      · simp only [require_attribute, hNum] at h1; cases h1
      · simp only [require_attribute, hNum] at h1 h2
        rcases hV : Version.parse vs with _ | v
        · simp only [hV] at h1; cases h1
        · simp only [hV] at h1 h2
          by_cases hlt1 : Version.lt spec1.max_version v = true
          · rw [if_pos hlt1] at h1
            cases h1
            by_cases hlt2 : Version.lt spec2.max_version v = true
            · rw [if_pos hlt2] at h2
              cases h2
              exact hR
            · rw [if_neg hlt2] at h2
              exact keySub_trans hR
                (featureChildren_noRemove_growth _ node.children hnrc s2 t2 h2)
          · rw [if_neg hlt1] at h1
            have hlt2 : Version.lt spec2.max_version v = false := by
              rw [Version.lt_eq_false_iff_le]
              refine Version.le_trans v spec1.max_version spec2.max_version ?_ hmax
              rw [← Version.lt_eq_false_iff_le]
              exact (Bool.not_eq_true _).mp hlt1
            rw [hlt2] at h2
            simp only [Bool.false_eq_true, if_false] at h2
            rw [hlink] at h1
            exact featureChildren_pair _ _ node.children hnrc s1 s2 t1 t2 hR h1 h2
    · rw [if_pos (by simp [ha])] at h1 h2
      cases h1; cases h2
      exact hR

theorem extensionItems_pair (ct : CallType) (l : List XmlNode)
    (s1 s2 t1 t2 : FeatureSet) (hR : keySub s1 s2)
    (h1 : extensionItems ct s1 l = .ok t1) (h2 : extensionItems ct s2 l = .ok t2) :
    keySub t1 t2 := by
  obtain ⟨hc1, he1⟩ := extensionItems_char ct l s1 t1 h1
  obtain ⟨hc2, he2⟩ := extensionItems_char ct l s2 t2 h2
  constructor
  · intro e hmem
    rcases (he1 e).mp hmem with h | h
    · exact (he2 e).mpr (Or.inl h)
    · exact (he2 e).mpr (Or.inr (hR.1 e h))
  · intro k hk
    rw [hc1 k] at hk
    rw [hc2 k]
    by_cases hm : k ∈ extReqCmdNames l
    · simp [hm]
    · rw [if_neg hm] at hk ⊢
      exact hR.2 k hk

theorem parse_extension_pair (node : XmlNode) (spec1 spec2 : FeatureSpec)
    (s1 s2 t1 t2 : FeatureSet)
    (hext : spec1.extensions = spec2.extensions) (hR : keySub s1 s2)
    (h1 : s1.parse_extension node spec1 = .ok t1)
    (h2 : s2.parse_extension node spec2 = .ok t2) : keySub t1 t2 := by
  unfold FeatureSet.parse_extension at h1 h2
  rcases hn : node.attr "name" with _ | nm
  · simp only [require_attribute, hn] at h1; cases h1
  · simp only [require_attribute, hn] at h1 h2
    rw [← hext] at h2
    rcases hlk : alLookup spec1.extensions nm with _ | ct
    · rw [hlk] at h1 h2
      cases h1; cases h2
      exact hR
    · rw [hlk] at h1 h2
      exact extensionItems_pair ct node.children s1 s2 t1 t2 hR h1 h2

theorem extensionList_pair (spec1 spec2 : FeatureSpec) (items : List XmlNode)
    (hext : spec1.extensions = spec2.extensions) :
    ∀ s1 s2 t1 t2, keySub s1 s2 → extensionList spec1 s1 items = .ok t1 →
    extensionList spec2 s2 items = .ok t2 → keySub t1 t2 := by
  induction items with
  | nil =>
    intro s1 s2 t1 t2 hR h1 h2
    simp only [extensionList] at h1 h2
    cases h1; cases h2
    exact hR
  | cons item rest ih =>
    intro s1 s2 t1 t2 hR h1 h2
    rcases hx1 : FeatureSet.parse_extension s1 item spec1 with e | u1
    · simp only [extensionList, hx1] at h1; cases h1
    · rcases hx2 : FeatureSet.parse_extension s2 item spec2 with e | u2
      · simp only [extensionList, hx2] at h2; cases h2
      · simp only [extensionList, hx1] at h1
        simp only [extensionList, hx2] at h2
        exact ih u1 u2 t1 t2
          (parse_extension_pair item spec1 spec2 s1 s2 u1 u2 hext hR hx1 hx2) h1 h2

theorem buildChildren_pair (spec1 spec2 : FeatureSpec)
    (hlink : spec1.linkable_version = spec2.linkable_version)
    (hext : spec1.extensions = spec2.extensions)
    (hmax : Version.le spec1.max_version spec2.max_version = true)
    (l : List XmlNode) (hnr : ∀ x ∈ l, noRemoveChild x) :
    ∀ s1 s2 t1 t2, keySub s1 s2 → buildChildren spec1 s1 l = .ok t1 →
    buildChildren spec2 s2 l = .ok t2 → keySub t1 t2 := by
  induction l with
  | nil =>
    intro s1 s2 t1 t2 hR h1 h2
    simp only [buildChildren] at h1 h2
    cases h1; cases h2
    exact hR
  | cons child rest ih =>
    intro s1 s2 t1 t2 hR h1 h2
    have hrest : ∀ x ∈ rest, noRemoveChild x :=
      fun x hx => hnr x (List.mem_cons_of_mem _ hx)
    by_cases hE : child.isElement = true
    · by_cases ht1 : child.tagName = "feature"
      · rcases hf1 : s1.parse_feature child spec1 with e | u1
        · simp only [buildChildren, hE, if_true, ht1, hf1] at h1; cases h1
        · rcases hf2 : s2.parse_feature child spec2 with e | u2
          · simp only [buildChildren, hE, if_true, ht1, hf2] at h2; cases h2
          · simp only [buildChildren, hE, if_true, ht1, hf1] at h1
            simp only [buildChildren, hE, if_true, ht1, hf2] at h2
            have hnrc : ∀ ch ∈ child.children, ch.tagName ≠ "remove" :=
              hnr child (List.mem_cons_self _ _) ht1
            exact ih hrest u1 u2 t1 t2
              (parse_feature_pair child spec1 spec2 s1 s2 u1 u2 hlink hmax hnrc hR hf1 hf2)
              h1 h2
      · by_cases ht2 : child.tagName = "extensions"
        · rcases hx1 : extensionList spec1 s1 (elementChildrenTag child "extension")
            with e | u1
          · simp only [buildChildren, hE, if_true] at h1
            rw [if_neg ht1, if_pos ht2, hx1] at h1
            cases h1
          · rcases hx2 : extensionList spec2 s2 (elementChildrenTag child "extension")
              with e | u2
            · simp only [buildChildren, hE, if_true] at h2
              rw [if_neg ht1, if_pos ht2, hx2] at h2
              cases h2
            · simp only [buildChildren, hE, if_true] at h1 h2
              rw [if_neg ht1, if_pos ht2, hx1] at h1
              rw [if_neg ht1, if_pos ht2, hx2] at h2
              exact ih hrest u1 u2 t1 t2
                (extensionList_pair spec1 spec2 _ hext s1 s2 u1 u2 hR hx1 hx2) h1 h2
        · simp only [buildChildren, hE, if_true] at h1 h2
          rw [if_neg ht1, if_neg ht2] at h1 h2
          exact ih hrest _ _ _ _ hR h1 h2
    · have hE' : child.isElement = false := by
        cases hb : child.isElement
        · rfl
        · exact absurd hb hE
      simp only [buildChildren, hE', Bool.false_eq_true, if_false] at h1 h2
      exact ih hrest _ _ _ _ hR h1 h2

/-- Claim C8: for a registry whose `<feature>` blocks contain only
`<require>` children (no `<remove>`), and two resolution parameter sets
differing only in the maximum version with `v1 < v2`, the enums set and the
commands key set resolved at `v2` are supersets of those resolved at
`v1`. -/
theorem C8_version_monotonicity (node : XmlNode) (spec1 spec2 : FeatureSpec)
    (fs1 fs2 : FeatureSet)
    (hlink : spec1.linkable_version = spec2.linkable_version)
    (hext : spec1.extensions = spec2.extensions)
    (hmax : Version.lt spec1.max_version spec2.max_version = true)
    (hnr : ∀ x ∈ node.children, noRemoveChild x)
    (h1 : FeatureSet.build node spec1 = .ok fs1)
    (h2 : FeatureSet.build node spec2 = .ok fs2) :
    (∀ e, e ∈ fs1.enums → e ∈ fs2.enums) ∧
    (∀ k, (alLookup fs1.commands k).isSome = true →
      (alLookup fs2.commands k).isSome = true) :=
  buildChildren_pair spec1 spec2 hlink hext
    (Version.le_of_lt _ _ hmax) node.children hnr ⟨[], []⟩ ⟨[], []⟩ fs1 fs2
    (keySub_refl _) h1 h2

/-- Claim C8 witness: a remove-free registry with features 1.0 and 2.0,
resolved at 1.0 and at 2.0. -/
theorem C8_witness :
    ("GL_E" ∈ (FeatureSet.mk ["GL_E"] [("glA", CallType.Linker), ("glB", CallType.Runtime)]).enums) ∧
    (alLookup (FeatureSet.mk ["GL_E"] [("glA", CallType.Linker), ("glB", CallType.Runtime)]).commands
      "glA").isSome = true := by
  have hnr : ∀ x ∈ regC8.children, noRemoveChild x := by
    intro x hx
    simp only [regC8, XmlNode.children, List.mem_cons, List.not_mem_nil, or_false] at hx
    rcases hx with rfl | rfl
    · intro _ ch hch
      simp only [featC8a, XmlNode.children, List.mem_cons, List.not_mem_nil, or_false] at hch
      subst hch
      decide
    · intro _ ch hch
      simp only [featC8b, XmlNode.children, List.mem_cons, List.not_mem_nil, or_false] at hch
      subst hch
      decide
  have h := C8_version_monotonicity regC8 ⟨⟨1, 0⟩, ⟨1, 0⟩, []⟩ ⟨⟨2, 0⟩, ⟨1, 0⟩, []⟩
    ⟨["GL_E"], [("glA", CallType.Linker)]⟩
    ⟨["GL_E"], [("glA", CallType.Linker), ("glB", CallType.Runtime)]⟩
    rfl rfl (by decide) hnr rfl rfl
  exact ⟨h.1 "GL_E" (by decide), h.2 "glA" (by decide)⟩
